import Mathlib

/-!
Shallow embedding of the six-stage ETL pipeline of `populate_cloud.py`
(repository SQL-AI-Assistant).  The input file is modelled as a list of
lines (the first line is the header, discarded by every stage, exactly as
`f.readline()` does in the source).  The relational store is modelled as a
record of six tables; each stage overwrites its own table, mirroring the
drop/create/bulk-insert of the script.  Strings are compared by Unicode
code point, as Python does.
-/

/-- The set of characters stripped by Python `str.strip()` (the ASCII
whitespace characters; the source file is ASCII). -/
def pyIsSpace (c : Char) : Bool :=
  c = ' ' || c = '\t' || c = '\n' || c = '\r' || c = '\x0b' || c = '\x0c'

/-- Python `s.strip()`: remove leading and trailing whitespace. -/
def pyStrip (s : String) : String :=
  String.mk (((s.toList.dropWhile pyIsSpace).reverse.dropWhile pyIsSpace).reverse)

/-- Auxiliary splitter: Python `s.split(sep)` with an explicit one-character
separator keeps empty pieces and never collapses separators. -/
def pySplitAux (sep : Char) : List Char → List Char → List (List Char)
  | [], acc => [acc.reverse]
  | c :: cs, acc =>
    if c = sep then acc.reverse :: pySplitAux sep cs []
    else pySplitAux sep cs (c :: acc)

/-- Python `s.split(sep)` for a one-character separator. -/
def pySplit (s : String) (sep : Char) : List String :=
  (pySplitAux sep s.toList []).map String.mk

/-- Python `s.split(" ", 1)`: split at the first space, if any. -/
def splitFirstSpace : List Char → Option (List Char × List Char)
  | [] => none
  | c :: cs =>
    if c = ' ' then some ([], cs)
    else (splitFirstSpace cs).map (fun p => (c :: p.1, p.2))

/-- `name.split(" ", 1)` guarded by `" " in name`, as the customer stage
does: a name without a space keeps the whole name as first name and gets
an empty last name. -/
def splitName (name : String) : String × String :=
  match splitFirstSpace name.toList with
  | some p => (String.mk p.1, String.mk p.2)
  | none => (name, "")

/-- Python string `<` : lexicographic comparison by code point. -/
def strLt : List Char → List Char → Bool
  | [], [] => false
  | [], _ :: _ => true
  | _ :: _, [] => false
  | a :: as, b :: bs =>
    if a.toNat < b.toNat then true
    else if b.toNat < a.toNat then false
    else strLt as bs

/-- Python string `<=` : lexicographic comparison by code point. -/
def strLe : List Char → List Char → Bool
  | [], _ => true
  | _ :: _, [] => false
  | a :: as, b :: bs =>
    if a.toNat < b.toNat then true
    else if b.toNat < a.toNat then false
    else strLe as bs

def pyStrLt (a b : String) : Bool := strLt a.toList b.toList

def pyStrLe (a b : String) : Bool := strLe a.toList b.toList

/-- The ordering relation used by `sorted()` on strings. -/
def strLeP (a b : String) : Prop := pyStrLe a b = true

instance : DecidableRel strLeP := fun a b =>
  inferInstanceAs (Decidable (pyStrLe a b = true))

/-- Python `sorted(strings)` (Timsort is stable; insertion sort is the
standard stable model). -/
def pySortStrings (l : List String) : List String := l.insertionSort strLeP

/-- `sorted(d.items(), key=lambda x: x[0])`: order key/value pairs by key. -/
def keyLeP {β : Type} (a b : String × β) : Prop := pyStrLe a.1 b.1 = true

instance {β : Type} : DecidableRel (keyLeP (β := β)) := fun a b =>
  inferInstanceAs (Decidable (pyStrLe a.1 b.1 = true))

def pySortByKey {β : Type} (l : List (String × β)) : List (String × β) :=
  l.insertionSort keyLeP

/-- Python dictionaries are modelled as association lists in insertion
order: assignment to a present key updates it in place, otherwise the key
is appended at the end.  Iteration order is the list order, as in
Python 3.7+. -/
def dinsert {β : Type} : List (String × β) → String → β → List (String × β)
  | [], k, v => [(k, v)]
  | (k0, v0) :: t, k, v =>
    if k0 = k then (k, v) :: t else (k0, v0) :: dinsert t k v

/-- Python `d.get(k)`. -/
def dget {β : Type} (d : List (String × β)) (k : String) : Option β :=
  (d.find? (fun p => p.1 = k)).map (fun p => p.2)

/-- Python `k in d`. -/
def dmem {β : Type} (d : List (String × β)) (k : String) : Bool :=
  (d.find? (fun p => p.1 = k)).isSome

/-- Python `if k not in d: d[k] = v`, the first-write-wins idiom of the
category and product stages. -/
def insertIfAbsent {β : Type} (m : List (String × β)) (p : String × β) :
    List (String × β) :=
  if dmem m p.1 then m else dinsert m p.1 p.2

/-- Python `set.add`, modelled on a duplicate-free list.  The set is only
ever consumed through `sorted()`, which makes the insertion order
irrelevant (proved below as permutation invariance). -/
def sadd (l : List String) (x : String) : List String :=
  if x ∈ l then l else l ++ [x]

/-- Python `int(s)`: optional sign followed by at least one digit. -/
def parseDigits : List Char → Option Nat
  | [] => none
  | cs =>
    if cs.all (fun c => c.isDigit) then
      some (cs.foldl (fun n c => 10 * n + (c.toNat - 48)) 0)
    else none

def pyInt (s : String) : Option Int :=
  match s.toList with
  | '+' :: rest => (parseDigits rest).map (fun n => (n : Int))
  | '-' :: rest => (parseDigits rest).map (fun n => -(n : Int))
  | cs => (parseDigits cs).map (fun n => (n : Int))

/-- Python `float(s)` on finite decimal literals: optional sign, then
digits with an optional fractional part (at least one digit overall),
optionally followed by a decimal exponent.  The value is modelled as an
exact rational; IEEE-754 rounding is not modelled, which is harmless here
because the pipeline never computes with prices, it only stores them. -/
def splitAtDot : List Char → List Char × Option (List Char)
  | [] => ([], none)
  | '.' :: rest => ([], some rest)
  | c :: rest =>
    let p := splitAtDot rest
    (c :: p.1, p.2)

def splitAtExp : List Char → List Char × Option (List Char)
  | [] => ([], none)
  | 'e' :: rest => ([], some rest)
  | 'E' :: rest => ([], some rest)
  | c :: rest =>
    let p := splitAtExp rest
    (c :: p.1, p.2)

def parseUnsignedInt : List Char → Option Int
  | '+' :: rest => (parseDigits rest).map (fun n => (n : Int))
  | '-' :: rest => (parseDigits rest).map (fun n => -(n : Int))
  | cs => (parseDigits cs).map (fun n => (n : Int))

def parseMantissa (cs : List Char) : Option Rat :=
  match splitAtDot cs with
  | (intPart, none) => (parseDigits intPart).map (fun n => (n : Rat))
  | (intPart, some fracPart) =>
    if intPart.isEmpty && fracPart.isEmpty then none
    else if (intPart.all (fun c => c.isDigit)) && (fracPart.all (fun c => c.isDigit)) then
      some ((intPart.foldl (fun n c => 10 * n + (c.toNat - 48)) 0 : Rat)
        + (fracPart.foldl (fun n c => 10 * n + (c.toNat - 48)) 0 : Rat)
          / ((10 : Rat) ^ fracPart.length))
    else none

def pyFloat (s : String) : Option Rat :=
  let signed : List Char × Rat :=
    match s.toList with
    | '+' :: rest => (rest, 1)
    | '-' :: rest => (rest, -1)
    | cs => (cs, 1)
  match splitAtExp signed.1 with
  | (mant, none) => (parseMantissa mant).map (fun q => signed.2 * q)
  | (mant, some expPart) =>
    match parseMantissa mant, parseUnsignedInt expPart with
    | some q, some e => some (signed.2 * q * (10 : Rat) ^ e)
    | _, _ => none

/-! ## Date handling

`datetime.strptime(s, "%Y%m%d")` in CPython matches the whole string
against the regular expression `(\d\d\d\d)(1[0-2]|0[1-9]|[1-9])(3[01]|[12]\d|0[1-9]|[1-9])`
(leftmost-greedy over the alternations), then validates the calendar day;
a failed validation raises without further backtracking.
`strftime("%Y-%m-%d")` prints the year unpadded (glibc) and month and day
zero-padded to two digits. -/

def digitVal (c : Char) : Nat := c.toNat - 48

/-- Match `%Y`: exactly four digits. -/
def matchY : List Char → Option (Nat × List Char)
  | a :: b :: c :: d :: rest =>
    if a.isDigit && b.isDigit && c.isDigit && d.isDigit then
      some (1000 * digitVal a + 100 * digitVal b + 10 * digitVal c + digitVal d, rest)
    else none
  | _ => none

/-- Candidates for `%m` = `1[0-2]|0[1-9]|[1-9]`, in alternation order. -/
def monthCands (cs : List Char) : List (Nat × List Char) :=
  (match cs with
   | a :: b :: rest =>
     (if a = '1' && ('0' ≤ b && b ≤ '2') then [(10 + digitVal b, rest)] else []) ++
     (if a = '0' && ('1' ≤ b && b ≤ '9') then [(digitVal b, rest)] else [])
   | _ => []) ++
  (match cs with
   | a :: rest => if '1' ≤ a && a ≤ '9' then [(digitVal a, rest)] else []
   | _ => [])

/-- Candidates for `%d` = `3[01]|[12]\d|0[1-9]|[1-9]`, in alternation order. -/
def dayCands (cs : List Char) : List (Nat × List Char) :=
  (match cs with
   | a :: b :: rest =>
     (if a = '3' && ('0' ≤ b && b ≤ '1') then [(30 + digitVal b, rest)] else []) ++
     (if ('1' ≤ a && a ≤ '2') && b.isDigit then [(10 * digitVal a + digitVal b, rest)] else []) ++
     (if a = '0' && ('1' ≤ b && b ≤ '9') then [(digitVal b, rest)] else [])
   | _ => []) ++
  (match cs with
   | a :: rest => if '1' ≤ a && a ≤ '9' then [(digitVal a, rest)] else []
   | _ => [])

/-- Backtracking over the month candidates: for each month candidate in
order, take the first day candidate that consumes the remaining input
completely. -/
def findFullMD : List (Nat × List Char) → Option (Nat × Nat)
  | [] => none
  | (m, rest) :: more =>
    match (dayCands rest).find? (fun p => p.2.isEmpty) with
    | some p => some (m, p.1)
    | none => findFullMD more

def isLeapYear (y : Nat) : Bool := (y % 4 = 0 && y % 100 ≠ 0) || y % 400 = 0

def daysInMonth (y m : Nat) : Nat :=
  if m = 2 then (if isLeapYear y then 29 else 28)
  else if m = 4 || m = 6 || m = 9 || m = 11 then 30
  else 31

/-- `datetime.strptime(s, "%Y%m%d")`: regex match, then calendar
validation (`datetime` requires year at least 1). -/
def strptimeYmd (s : String) : Option (Nat × Nat × Nat) :=
  match matchY s.toList with
  | none => none
  | some (y, rest) =>
    match findFullMD (monthCands rest) with
    | none => none
    | some (m, d) =>
      if 1 ≤ y && 1 ≤ d && d ≤ daysInMonth y m then some (y, m, d) else none

/-- The decimal digit characters. -/
def digitChar (n : Nat) : Char := Char.ofNat (48 + n)

/-- Decimal printing of a natural number (fuel-based so that it reduces in
the kernel); `natRepr` agrees with `toString` on naturals. -/
def natReprAux : Nat → Nat → List Char
  | 0, _ => []
  | fuel + 1, n =>
    if n < 10 then [digitChar n]
    else natReprAux fuel (n / 10) ++ [digitChar (n % 10)]

def natRepr (n : Nat) : String := String.mk (natReprAux (n + 1) n)

/-- Zero-pad a number below 100 to two digits, as `strftime` `%m`/`%d` do. -/
def pad2 (n : Nat) : String :=
  if n < 10 then "0" ++ natRepr n else natRepr n

/-- `strftime("%Y-%m-%d")` applied to a parsed date (the year is printed
unpadded, as glibc does; all dates here have four-digit years anyway). -/
def formatDate (ymd : Nat × Nat × Nat) : String :=
  natRepr ymd.1 ++ "-" ++ pad2 ymd.2.1 ++ "-" ++ pad2 ymd.2.2

/-- The date conversion done per order sub-record:
`datetime.strptime(date_str, "%Y%m%d").strftime("%Y-%m-%d")`,
`None` modelling the `ValueError` path. -/
def pyDate (s : String) : Option String :=
  (strptimeYmd s).map formatDate

/-! ## The store and the six stages -/

/-- The six tables of the warehouse.  Row layouts follow the DDL:
Region (RegionID, Region); Country (CountryID, Country, RegionID);
Customer (CustomerID, FirstName, LastName, Address, City, CountryID);
ProductCategory (ProductCategoryID, ProductCategory, Description);
Product (ProductID, ProductName, ProductUnitPrice, ProductCategoryID);
OrderDetail (OrderID, CustomerID, ProductID, OrderDate, QuantityOrdered). -/
structure DB where
  region : List (Nat × String)
  country : List (Nat × String × Nat)
  customer : List (Nat × String × String × String × String × Nat)
  productCategory : List (Nat × String × String)
  product : List (Nat × String × Rat × Nat)
  orderDetail : List (Nat × Nat × Nat × String × Int)
deriving DecidableEq

/-- A store with all six tables absent or empty; the start state of a run. -/
def emptyDB : DB := ⟨[], [], [], [], [], []⟩

/-- Step 1, collection loop: distinct region names (col 4) from lines with
more than 4 tab-separated columns. -/
def step1_collect (file : List String) : List String :=
  (file.drop 1).foldl (fun regions rawLine =>
    let line := pyStrip rawLine
    if line = "" then regions
    else
      let cols := pySplit line '\t'
      if 4 < cols.length then
        let region := pyStrip (cols.getD 4 "")
        if region = "" then regions else sadd regions region
      else regions) []

/-- The identifier assigner shared by the stages: sort, then number from 1
by position. -/
def assignIdsStr (keys : List String) : List (Nat × String) :=
  (pySortStrings keys).enum.map (fun p => (p.1 + 1, p.2))

def step1_create_region_table (file : List String) (db : DB) : DB :=
  { db with region := assignIdsStr (step1_collect file) }

/-- `SELECT RegionID, Region FROM Region` turned into a name-to-identifier
dictionary. -/
def step2_get_region_dict (db : DB) : List (String × Nat) :=
  db.region.foldl (fun d p => dinsert d p.2 p.1) []

/-- Step 3, collection loop: country (col 3) mapped to the resolved region
identifier; an unresolved region name is skipped; later occurrences of a
country overwrite earlier ones. -/
def step3_collect (file : List String) (regionDict : List (String × Nat)) :
    List (String × Nat) :=
  (file.drop 1).foldl (fun countries rawLine =>
    let line := pyStrip rawLine
    if line = "" then countries
    else
      let cols := pySplit line '\t'
      if cols.length < 5 then countries
      else
        let country := pyStrip (cols.getD 3 "")
        let region := pyStrip (cols.getD 4 "")
        if country = "" || region = "" then countries
        else
          match dget regionDict region with
          | none => countries
          | some rid => dinsert countries country rid) []

/-- Sort key/value pairs by key and number from 1 by position. -/
def assignIdsKV {β : Type} (m : List (String × β)) : List (Nat × String × β) :=
  (pySortByKey m).enum.map (fun p => (p.1 + 1, p.2.1, p.2.2))

def step3_create_country_table (file : List String) (db : DB) : DB :=
  { db with country := assignIdsKV (step3_collect file (step2_get_region_dict db)) }

def step4_get_country_dict (db : DB) : List (String × Nat) :=
  db.country.foldl (fun d p => dinsert d p.2.1 p.1) []

/-- Step 5, collection loop: one customer row per line with at least 4
columns whose country resolves; the name is split at the first space; no
deduplication happens, every qualifying line is appended. -/
def step5_collect (file : List String) (countryDict : List (String × Nat)) :
    List (String × String × String × String × Nat) :=
  (file.drop 1).foldl (fun rows rawLine =>
    let line := pyStrip rawLine
    if line = "" then rows
    else
      let cols := pySplit line '\t'
      if cols.length < 4 then rows
      else
        let name := pyStrip (cols.getD 0 "")
        let address := pyStrip (cols.getD 1 "")
        let city := pyStrip (cols.getD 2 "")
        let country := pyStrip (cols.getD 3 "")
        let fl := splitName name
        match dget countryDict country with
        | none => rows
        | some cid => rows ++ [(fl.1, fl.2, address, city, cid)]) []

/-- The customer sort key `(x[0], x[1])`: lexicographic on
(FirstName, LastName). -/
def custLeP (a b : String × String × String × String × Nat) : Prop :=
  (pyStrLt a.1 b.1 || (a.1 = b.1 && pyStrLe a.2.1 b.2.1)) = true

instance : DecidableRel custLeP := fun a b =>
  inferInstanceAs (Decidable ((pyStrLt a.1 b.1 || (a.1 = b.1 && pyStrLe a.2.1 b.2.1)) = true))

def step5_create_customer_table (file : List String) (db : DB) : DB :=
  let sortedRows := (step5_collect file (step4_get_country_dict db)).insertionSort custLeP
  { db with customer := sortedRows.enum.map (fun p => (p.1 + 1, p.2)) }

/-- `SELECT CustomerID, FirstName, LastName FROM Customer` turned into a
dictionary keyed by the f-string `FirstName SPACE LastName`. -/
def customerKey (firstName lastName : String) : String :=
  firstName ++ " " ++ lastName

def step6_get_customer_dict (db : DB) : List (String × Nat) :=
  db.customer.foldl (fun d r => dinsert d (customerKey r.2.1 r.2.2.1) r.1) []

/-- Step 7, collection loop: first-write-wins mapping category name to
description from the semicolon-split parallel lists in cols 6 and 7; a
sub-record with an empty category name is skipped, one with an empty
description is not. -/
def step7_collect (file : List String) : List (String × String) :=
  (file.drop 1).foldl (fun catmap rawLine =>
    let line := pyStrip rawLine
    if line = "" then catmap
    else
      let cols := pySplit line '\t'
      if cols.length ≤ 7 then catmap
      else
        let catField := pyStrip (cols.getD 6 "")
        let descField := pyStrip (cols.getD 7 "")
        if catField = "" || descField = "" then catmap
        else
          let categories := (pySplit catField ';').map pyStrip
          let descriptions := (pySplit descField ';').map pyStrip
          (categories.zip descriptions).foldl (fun m p =>
            if p.1 = "" then m
            else insertIfAbsent m p) catmap) []

def step7_create_productcategory_table (file : List String) (db : DB) : DB :=
  { db with productCategory := assignIdsKV (step7_collect file) }

def step8_get_category_dict (db : DB) : List (String × Nat) :=
  db.productCategory.foldl (fun d r => dinsert d r.2.1 r.1) []

/-- Step 9, collection loop: first-write-wins mapping product name to
(unit price, category identifier) from the semicolon-split parallel lists
in cols 5, 6 and 8; a sub-record is skipped when the name is empty, the
price does not parse, or the category does not resolve. -/
def step9_collect (file : List String) (catDict : List (String × Nat)) :
    List (String × Rat × Nat) :=
  (file.drop 1).foldl (fun products rawLine =>
    let line := pyStrip rawLine
    if line = "" then products
    else
      let cols := pySplit line '\t'
      if cols.length ≤ 8 then products
      else
        let nameField := pyStrip (cols.getD 5 "")
        let catField := pyStrip (cols.getD 6 "")
        let priceField := pyStrip (cols.getD 8 "")
        if nameField = "" || catField = "" || priceField = "" then products
        else
          let names := (pySplit nameField ';').map pyStrip
          let categories := (pySplit catField ';').map pyStrip
          let prices := (pySplit priceField ';').map pyStrip
          (names.zip (categories.zip prices)).foldl (fun m t =>
            if t.1 = "" then m
            else
              match pyFloat t.2.2 with
              | none => m
              | some unitPrice =>
                match dget catDict t.2.1 with
                | none => m
                | some cid => insertIfAbsent m (t.1, unitPrice, cid)) products) []

def step9_create_product_table (file : List String) (db : DB) : DB :=
  let rows := (pySortByKey (step9_collect file (step8_get_category_dict db))).enum.map
    (fun p => (p.1 + 1, p.2.1, p.2.2.1, p.2.2.2))
  { db with product := rows }

def step10_get_product_dict (db : DB) : List (String × Nat) :=
  db.product.foldl (fun d r => dinsert d r.2.1 r.1) []

/-- The inner loop of step 11 over one line: zip the product, quantity and
date sub-fields, and emit one row per sub-record whose product resolves
and whose quantity and date parse.  The order counter is threaded. -/
def step11_line (prodDict : List (String × Nat)) (custId : Nat)
    (subs : List (String × String × String))
    (acc : List (Nat × Nat × Nat × String × Int) × Nat) :
    List (Nat × Nat × Nat × String × Int) × Nat :=
  subs.foldl (fun a t =>
    if t.1 = "" then a
    else
      match dget prodDict t.1 with
      | none => a
      | some pid =>
        match pyInt t.2.1 with
        | none => a
        | some qty =>
          match pyDate t.2.2 with
          | none => a
          | some dateStr =>
            (a.1 ++ [(a.2, custId, pid, dateStr, qty)], a.2 + 1)) acc

/-- Step 11, collection loop: per line with more than 10 columns, resolve
the customer by the stripped full name, then process the semicolon-split
sub-records; `order_id` starts at 1 and increments per emitted row. -/
def step11_collect (file : List String) (custDict prodDict : List (String × Nat)) :
    List (Nat × Nat × Nat × String × Int) :=
  ((file.drop 1).foldl (fun acc rawLine =>
    let line := pyStrip rawLine
    if line = "" then acc
    else
      let cols := pySplit line '\t'
      if cols.length ≤ 10 then acc
      else
        let name := pyStrip (cols.getD 0 "")
        let pnField := pyStrip (cols.getD 5 "")
        let qField := pyStrip (cols.getD 9 "")
        let dField := pyStrip (cols.getD 10 "")
        if name = "" || pnField = "" || qField = "" || dField = "" then acc
        else
          match dget custDict name with
          | none => acc
          | some custId =>
            let pnames := (pySplit pnField ';').map pyStrip
            let qtys := (pySplit qField ';').map pyStrip
            let dates := (pySplit dField ';').map pyStrip
            step11_line prodDict custId (pnames.zip (qtys.zip dates)) acc)
    ([], 1)).1

def step11_create_orderdetail_table (file : List String) (db : DB) : DB :=
  { db with orderDetail :=
      step11_collect file (step6_get_customer_dict db) (step10_get_product_dict db) }

/-- The `__main__` driver: the six stages in order against one store. -/
def runPipeline (file : List String) (db : DB) : DB :=
  step11_create_orderdetail_table file
    (step9_create_product_table file
      (step7_create_productcategory_table file
        (step5_create_customer_table file
          (step3_create_country_table file
            (step1_create_region_table file db)))))


/-! ## Order infrastructure for the sorts -/

theorem strLt_irrefl (a : List Char) : strLt a a = false := by
  induction a with
  | nil => rfl
  | cons c t ih => simp [strLt, ih]

theorem strLe_refl (a : List Char) : strLe a a = true := by
  induction a with
  | nil => rfl
  | cons c t ih => simp [strLe, ih]

theorem strLe_iff (a b : List Char) : strLe a b = true ↔ (strLt a b = true ∨ a = b) := by
  induction a generalizing b with
  | nil => cases b <;> simp [strLe, strLt]
  | cons c t ih =>
    cases b with
    | nil => simp [strLe, strLt]
    | cons d u =>
      by_cases h1 : c.toNat < d.toNat
      · simp [strLe, strLt, h1]
      · by_cases h2 : d.toNat < c.toNat
        · have hne : c ≠ d := fun h => by subst h; omega
          simp [strLe, strLt, h1, h2, hne]
        · have hn : c.toNat = d.toNat := by omega
          have hcd : c = d := Char.ext (UInt32.ext hn)
          subst hcd
          simp [strLe, strLt, h1, h2, ih]

theorem strLt_trans {a b c : List Char} (h1 : strLt a b = true) (h2 : strLt b c = true) :
    strLt a c = true := by
  induction a generalizing b c with
  | nil =>
    cases c with
    | nil => cases b <;> simp_all [strLt]
    | cons _ _ => simp [strLt]
  | cons x t ih =>
    cases b with
    | nil => simp [strLt] at h1
    | cons y u =>
      cases c with
      | nil => simp [strLt] at h2
      | cons z v =>
        simp only [strLt] at h1 h2 ⊢
        by_cases hxy : x.toNat < y.toNat <;> by_cases hyx : y.toNat < x.toNat <;>
          by_cases hyz : y.toNat < z.toNat <;> by_cases hzy : z.toNat < y.toNat <;>
          simp [hxy, hyx, hyz, hzy] at h1 h2 ⊢ <;>
          first
            | omega
            | (have hxz : ¬ x.toNat < z.toNat := by omega
               have hzx : ¬ z.toNat < x.toNat := by omega
               simp [hxz, hzx]
               exact ⟨by omega, ih h1 h2⟩)

theorem strLe_total (a b : List Char) : strLe a b = true ∨ strLe b a = true := by
  induction a generalizing b with
  | nil => left; rfl
  | cons c t ih =>
    cases b with
    | nil => right; rfl
    | cons d u =>
      rcases Nat.lt_trichotomy c.toNat d.toNat with h | h | h
      · left; simp [strLe, h]
      · have hcd : c = d := Char.ext (UInt32.ext h)
        subst hcd
        rcases ih u with h2 | h2
        · left; simp [strLe, h2]
        · right; simp [strLe, h2]
      · right; simp [strLe, h, Nat.lt_asymm h]

theorem strLe_trans {a b c : List Char} (h1 : strLe a b = true) (h2 : strLe b c = true) :
    strLe a c = true := by
  rcases (strLe_iff a b).mp h1 with h1 | rfl
  · rcases (strLe_iff b c).mp h2 with h2 | rfl
    · exact (strLe_iff a c).mpr (Or.inl (strLt_trans h1 h2))
    · exact (strLe_iff a b).mpr (Or.inl h1)
  · exact h2

theorem strLe_antisymm {a b : List Char} (h1 : strLe a b = true) (h2 : strLe b a = true) :
    a = b := by
  rcases (strLe_iff a b).mp h1 with h1 | rfl
  · rcases (strLe_iff b a).mp h2 with h2 | rfl
    · have h3 := strLt_trans h1 h2
      rw [strLt_irrefl] at h3
      exact absurd h3 (by simp)
    · rfl
  · rfl

theorem pyStrLe_antisymm {a b : String} (h1 : pyStrLe a b = true) (h2 : pyStrLe b a = true) :
    a = b := by
  cases a; cases b
  have h3 := strLe_antisymm h1 h2
  simp only [String.toList] at h3
  simp_all

instance : IsTotal String strLeP := ⟨fun a b => strLe_total a.toList b.toList⟩

instance : IsTrans String strLeP := ⟨fun _ _ _ => strLe_trans⟩

instance : IsRefl String strLeP := ⟨fun a => strLe_refl a.toList⟩

instance : IsAntisymm String strLeP := ⟨fun _ _ => pyStrLe_antisymm⟩

instance {β : Type} : IsTotal (String × β) keyLeP :=
  ⟨fun a b => strLe_total a.1.toList b.1.toList⟩

instance {β : Type} : IsTrans (String × β) keyLeP := ⟨fun _ _ _ => strLe_trans⟩

/-! ## Dictionary lemmas -/

theorem mem_dinsert {β : Type} {d : List (String × β)} {k0 : String} {v0 : β}
    {p : String × β} (h : p ∈ dinsert d k0 v0) : p = (k0, v0) ∨ p ∈ d := by
  induction d with
  | nil => simpa [dinsert] using h
  | cons q t ih =>
    simp only [dinsert] at h
    split at h
    · rcases List.mem_cons.mp h with h | h
      · exact Or.inl h
      · exact Or.inr (List.mem_cons_of_mem _ h)
    · rcases List.mem_cons.mp h with h | h
      · exact Or.inr (h ▸ List.mem_cons_self _ _)
      · rcases ih h with h | h
        · exact Or.inl h
        · exact Or.inr (List.mem_cons_of_mem _ h)

theorem dget_some_mem {β : Type} {d : List (String × β)} {k : String} {v : β}
    (h : dget d k = some v) : (k, v) ∈ d := by
  induction d with
  | nil => simp [dget] at h
  | cons q t ih =>
    simp only [dget, List.find?] at h
    by_cases hq : q.1 = k
    · simp [hq] at h
      have : q = (k, v) := by
        cases q
        simp_all
      rw [this]
      exact List.mem_cons_self _ _
    · simp [hq] at h
      exact List.mem_cons_of_mem _ (ih (by simpa [dget] using h))

/-- Membership in a dictionary built by folding `dinsert` over rows comes
from one of the rows (or from the start dictionary). -/
theorem mem_foldl_dinsert {β γ : Type} (key : γ → String) (val : γ → β)
    (rows : List γ) (init : List (String × β)) (p : String × β)
    (h : p ∈ rows.foldl (fun d r => dinsert d (key r) (val r)) init) :
    p ∈ init ∨ ∃ r ∈ rows, p = (key r, val r) := by
  induction rows generalizing init with
  | nil => exact Or.inl h
  | cons r t ih =>
    simp only [List.foldl_cons] at h
    rcases ih (dinsert init (key r) (val r)) h with h | ⟨r2, hr2, hp⟩
    · rcases mem_dinsert h with h | h
      · exact Or.inr ⟨r, List.mem_cons_self _ _, h⟩
      · exact Or.inl h
    · exact Or.inr ⟨r2, List.mem_cons_of_mem _ hr2, hp⟩

/-! ## Generic fold lemmas -/

/-- A fold whose body pattern-matches an optional extraction equals the
fold over the extracted list. -/
theorem foldl_opt {α β γ : Type} (h : α → Option γ) (u : β → γ → β)
    (l : List α) (init : β) :
    l.foldl (fun m x => match h x with | none => m | some y => u m y) init
      = (l.filterMap h).foldl u init := by
  induction l generalizing init with
  | nil => rfl
  | cons x t ih =>
    simp only [List.foldl_cons, List.filterMap_cons]
    cases h x <;> simp [ih]

/-- A nested fold over per-line sublists equals the fold over the
flattened list. -/
theorem foldl_flatMap {α β γ : Type} (g : α → List γ) (u : β → γ → β)
    (l : List α) (init : β) :
    l.foldl (fun m x => (g x).foldl u m) init = (l.flatMap g).foldl u init := by
  induction l generalizing init with
  | nil => rfl
  | cons x t ih => simp [List.foldl_append, ih]

/-- A fold that appends at most one row per element builds the filterMap. -/
theorem foldl_append_one {α β : Type} (h : α → Option β) (l : List α)
    (init : List β) :
    l.foldl (fun rows x => (h x).elim rows (fun r => rows ++ [r])) init
      = init ++ l.filterMap h := by
  induction l generalizing init with
  | nil => simp
  | cons x t ih =>
    simp only [List.foldl_cons, List.filterMap_cons]
    cases h x <;> simp [ih]

/-- An element ignored by the fold body can be removed from the list. -/
theorem foldl_skip_middle {α β : Type} (f : β → α → β) (x : α)
    (hx : ∀ acc, f acc x = acc) (l1 l2 : List α) (init : β) :
    (l1 ++ x :: l2).foldl f init = (l1 ++ l2).foldl f init := by
  simp [List.foldl_append, List.foldl_cons, hx]

/-- An invariant preserved by every step of a fold holds of the result. -/
theorem foldl_preserve {α β : Type} (P : β → Prop) (f : β → α → β)
    (l : List α) (init : β) (h0 : P init)
    (hstep : ∀ acc x, P acc → P (f acc x)) : P (l.foldl f init) := by
  induction l generalizing init with
  | nil => exact h0
  | cons x t ih => exact ih (f init x) (hstep init x h0)

/-! ## First-write-wins dictionary building -/

theorem dget_nil {β : Type} (k : String) : dget ([] : List (String × β)) k = none := rfl

theorem dmem_eq_isSome {β : Type} (d : List (String × β)) (k : String) :
    dmem d k = (dget d k).isSome := by
  simp [dmem, dget]

theorem dget_dinsert_self {β : Type} (d : List (String × β)) (k : String) (v : β) :
    dget (dinsert d k v) k = some v := by
  induction d with
  | nil => simp [dinsert, dget, List.find?]
  | cons q t ih =>
    simp only [dinsert]
    split
    · simp [dget, List.find?]
    · rename_i hq
      simp only [dget, List.find?]
      rw [show (decide (q.1 = k)) = false from by simpa using hq]
      simpa [dget] using ih

theorem dget_dinsert_ne {β : Type} (d : List (String × β)) (k k0 : String) (v : β)
    (h : k0 ≠ k) : dget (dinsert d k0 v) k = dget d k := by
  induction d with
  | nil => simp [dinsert, dget, List.find?, h]
  | cons q t ih =>
    simp only [dinsert]
    split
    · rename_i hq
      subst hq
      simp [dget, List.find?, h]
    · simp only [dget, List.find?]
      cases hqk : decide (q.1 = k) <;> simp [dget] at ih ⊢
      exact ih

/-- Looking up a key in a first-write-wins fold finds the value of the
first sub-record carrying that key. -/
theorem dget_foldl_insertIfAbsent {β : Type} (l : List (String × β))
    (init : List (String × β)) (k : String) :
    dget (l.foldl insertIfAbsent init) k =
      match dget init k with
      | some v => some v
      | none => (l.find? (fun p => p.1 = k)).map (fun p => p.2) := by
  induction l generalizing init with
  | nil => cases h : dget init k <;> simp [h]
  | cons p t ih =>
    simp only [List.foldl_cons]
    rw [ih]
    by_cases hm : dmem init p.1 = true
    · have hIA : insertIfAbsent init p = init := by simp [insertIfAbsent, hm]
      rw [hIA]
      cases h : dget init k with
      | some v => simp
      | none =>
        have hne : ¬ p.1 = k := by
          intro he
          rw [dmem_eq_isSome, he, h] at hm
          simp at hm
        simp [List.find?, hne]
    · have hIA : insertIfAbsent init p = dinsert init p.1 p.2 := by
        simp [insertIfAbsent] at hm ⊢
        simp [hm]
      rw [hIA]
      by_cases hk : p.1 = k
      · subst hk
        rw [dget_dinsert_self]
        have h0 : dget init p.1 = none := by
          rw [dmem_eq_isSome] at hm
          cases h : dget init p.1 <;> simp [h] at hm ⊢
        simp [h0, List.find?]
      · rw [dget_dinsert_ne _ _ _ _ hk]
        cases h : dget init k <;> simp [h, List.find?, hk]

/-- A fold body that skips elements failing a guard equals the fold over
the filtered list. -/
theorem foldl_skip_guard {α β : Type} (P : α → Prop) [DecidablePred P]
    (u : β → α → β) (l : List α) (init : β) :
    l.foldl (fun m x => if P x then m else u m x) init
      = (l.filter (fun x => ¬ P x)).foldl u init := by
  induction l generalizing init with
  | nil => rfl
  | cons x t ih =>
    simp only [List.foldl_cons, List.filter_cons]
    by_cases h : P x <;> simp [h, ih]

/-! ## Per-line characterizations of the collection loops -/

/-- The per-line extraction of the customer stage: the row appended for
one source line, or `none` when the line is skipped. -/
def step5_line (countryDict : List (String × Nat)) (rawLine : String) :
    Option (String × String × String × String × Nat) :=
  let line := pyStrip rawLine
  if line = "" then none
  else
    let cols := pySplit line '\t'
    if cols.length < 4 then none
    else
      let name := pyStrip (cols.getD 0 "")
      let address := pyStrip (cols.getD 1 "")
      let city := pyStrip (cols.getD 2 "")
      let country := pyStrip (cols.getD 3 "")
      let fl := splitName name
      match dget countryDict country with
      | none => none
      | some cid => some (fl.1, fl.2, address, city, cid)

theorem step5_collect_eq (file : List String) (d : List (String × Nat)) :
    step5_collect file d = (file.drop 1).filterMap (step5_line d) := by
  unfold step5_collect
  rw [List.foldl_ext _ (fun rows raw =>
        (step5_line d raw).elim rows (fun r => rows ++ [r]))
      [] (fun rows raw _ => by
        simp only [step5_line]
        by_cases h1 : pyStrip raw = ""
        · simp [h1]
        · by_cases h2 : (pySplit (pyStrip raw) '\t').length < 4
          · simp [h1, h2]
          · cases h3 : dget d (pyStrip ((pySplit (pyStrip raw) '\t').getD 3 "")) <;>
              simp [h1, h2, h3])]
  simpa using foldl_append_one (step5_line d) (file.drop 1) []

/-- The inner loop of the category stage skips the empty-name sub-records
and first-write-wins-inserts the rest. -/
theorem foldl_skip_empty {β : Type} (l : List (String × β))
    (m : List (String × β)) :
    l.foldl (fun m p => if p.1 = "" then m else insertIfAbsent m p) m
      = (l.filter (fun p => ¬ p.1 = "")).foldl insertIfAbsent m := by
  induction l generalizing m with
  | nil => rfl
  | cons p t ih =>
    by_cases h : p.1 = "" <;> simp [List.filter_cons, h, ih]

/-- The category/description sub-records one source line contributes to
the category map (the empty-name ones are skipped inside the loop). -/
def step7_lineRecs (rawLine : String) : List (String × String) :=
  let line := pyStrip rawLine
  if line = "" then []
  else
    let cols := pySplit line '\t'
    if cols.length ≤ 7 then []
    else
      let catField := pyStrip (cols.getD 6 "")
      let descField := pyStrip (cols.getD 7 "")
      if catField = "" || descField = "" then []
      else
        (((pySplit catField ';').map pyStrip).zip
          ((pySplit descField ';').map pyStrip)).filter (fun p => ¬ p.1 = "")

def step7_subrecords (file : List String) : List (String × String) :=
  (file.drop 1).flatMap step7_lineRecs

theorem step7_collect_eq (file : List String) :
    step7_collect file = (step7_subrecords file).foldl insertIfAbsent [] := by
  unfold step7_collect step7_subrecords
  rw [← foldl_flatMap]
  apply List.foldl_ext
  intro m raw _
  simp only [step7_lineRecs]
  split_ifs with h1 h2 h3
  · rfl
  · rfl
  · rfl
  · exact foldl_skip_empty _ m

/-- One product sub-record of the product stage: skipped when the name is
empty, the price fails to parse, or the category fails to resolve. -/
def step9_sub (catDict : List (String × Nat)) (t : String × String × String) :
    Option (String × Rat × Nat) :=
  if t.1 = "" then none
  else
    match pyFloat t.2.2 with
    | none => none
    | some unitPrice =>
      match dget catDict t.2.1 with
      | none => none
      | some cid => some (t.1, unitPrice, cid)

/-- The inner loop of the product stage in terms of `step9_sub`. -/
theorem foldl_step9_sub (cd : List (String × Nat))
    (l : List (String × String × String)) (m : List (String × Rat × Nat)) :
    l.foldl (fun m t =>
        if t.1 = "" then m
        else
          match pyFloat t.2.2 with
          | none => m
          | some unitPrice =>
            match dget cd t.2.1 with
            | none => m
            | some cid => insertIfAbsent m (t.1, unitPrice, cid)) m
      = (l.filterMap (step9_sub cd)).foldl insertIfAbsent m := by
  induction l generalizing m with
  | nil => rfl
  | cons t ts ih =>
    simp only [List.foldl_cons, List.filterMap_cons, step9_sub]
    by_cases h1 : t.1 = ""
    · simp [h1, ih]
    · cases h2 : pyFloat t.2.2 with
      | none => simp [h1, h2, ih]
      | some up =>
        cases h3 : dget cd t.2.1 with
        | none => simp [h1, h2, h3, ih]
        | some cid => simp [h1, h2, h3, ih]

/-- The product sub-records one source line contributes to the product
map. -/
def step9_lineRecs (catDict : List (String × Nat)) (rawLine : String) :
    List (String × Rat × Nat) :=
  let line := pyStrip rawLine
  if line = "" then []
  else
    let cols := pySplit line '\t'
    if cols.length ≤ 8 then []
    else
      let nameField := pyStrip (cols.getD 5 "")
      let catField := pyStrip (cols.getD 6 "")
      let priceField := pyStrip (cols.getD 8 "")
      if nameField = "" || catField = "" || priceField = "" then []
      else
        (((pySplit nameField ';').map pyStrip).zip
          (((pySplit catField ';').map pyStrip).zip
            ((pySplit priceField ';').map pyStrip))).filterMap (step9_sub catDict)

def step9_subrecords (file : List String) (catDict : List (String × Nat)) :
    List (String × Rat × Nat) :=
  (file.drop 1).flatMap (step9_lineRecs catDict)

theorem step9_collect_eq (file : List String) (cd : List (String × Nat)) :
    step9_collect file cd = (step9_subrecords file cd).foldl insertIfAbsent [] := by
  unfold step9_collect step9_subrecords
  rw [← foldl_flatMap]
  apply List.foldl_ext
  intro m raw _
  simp only [step9_lineRecs]
  split_ifs with h1 h2 h3
  · rfl
  · rfl
  · rfl
  · exact foldl_step9_sub _ _ m

/-- One order sub-record: skipped when the product name is empty, the
product does not resolve, or the quantity or the date fails to parse;
otherwise the resolved product, converted date and parsed quantity. -/
def step11_sub (prodDict : List (String × Nat)) (t : String × String × String) :
    Option (Nat × String × Int) :=
  if t.1 = "" then none
  else
    match dget prodDict t.1 with
    | none => none
    | some pid =>
      match pyInt t.2.1 with
      | none => none
      | some qty =>
        match pyDate t.2.2 with
        | none => none
        | some dateStr => some (pid, dateStr, qty)

/-- The inner loop of the order stage processes each sub-record
independently: the emitted rows are exactly the sub-records that pass
`step11_sub`, numbered consecutively from the incoming counter.  In
particular a sub-record with an unparseable date contributes nothing
while the neighbouring sub-records of the same line still do. -/
theorem step11_line_eq (pd : List (String × Nat)) (cid : Nat)
    (subs : List (String × String × String))
    (rows : List (Nat × Nat × Nat × String × Int)) (n : Nat) :
    step11_line pd cid subs (rows, n)
      = (rows ++ ((subs.filterMap (step11_sub pd)).enumFrom n).map
          (fun p => (p.1, cid, p.2.1, p.2.2.1, p.2.2.2)),
         n + (subs.filterMap (step11_sub pd)).length) := by
  induction subs generalizing rows n with
  | nil => simp [step11_line]
  | cons t ts ih =>
    have hsingle : ∀ acc : List (Nat × Nat × Nat × String × Int) × Nat,
        step11_line pd cid [t] acc
          = match step11_sub pd t with
            | none => acc
            | some v => (acc.1 ++ [(acc.2, cid, v.1, v.2.1, v.2.2)], acc.2 + 1) := by
      intro acc
      simp only [step11_line, List.foldl_cons, List.foldl_nil, step11_sub]
      by_cases h1 : t.1 = ""
      · simp [h1]
      · cases h2 : dget pd t.1 with
        | none => simp [h1, h2]
        | some pid =>
          cases h3 : pyInt t.2.1 with
          | none => simp [h1, h2, h3]
          | some qty =>
            cases h4 : pyDate t.2.2 with
            | none => simp [h1, h2, h3, h4]
            | some ds => simp [h1, h2, h3, h4]
    have hcons : step11_line pd cid (t :: ts) (rows, n)
        = step11_line pd cid ts (step11_line pd cid [t] (rows, n)) := by
      simp [step11_line]
    rw [hcons, hsingle]
    cases hs : step11_sub pd t with
    | none => simp [hs, ih, List.filterMap_cons]
    | some v =>
      simp only [List.filterMap_cons, hs]
      rw [ih]
      simp [List.enumFrom_cons]
      omega

/-- `step11_line_eq` for an accumulator given as a variable. -/
theorem step11_line_eq_pair (pd : List (String × Nat)) (cid : Nat)
    (subs : List (String × String × String))
    (acc : List (Nat × Nat × Nat × String × Int) × Nat) :
    step11_line pd cid subs acc
      = (acc.1 ++ ((subs.filterMap (step11_sub pd)).enumFrom acc.2).map
          (fun p => (p.1, cid, p.2.1, p.2.2.1, p.2.2.2)),
         acc.2 + (subs.filterMap (step11_sub pd)).length) := by
  obtain ⟨rows, n⟩ := acc
  exact step11_line_eq pd cid subs rows n

/-! ## The identifier assigner: sort, then number from 1 -/

theorem pySortStrings_perm (l : List String) : (pySortStrings l).Perm l :=
  List.perm_insertionSort strLeP l

theorem pySortStrings_sorted (l : List String) : List.Sorted strLeP (pySortStrings l) :=
  List.sorted_insertionSort strLeP l

/-- Sorting is a function of the multiset of keys: permuted input, same
sorted output.  This is what makes the set/dict iteration order of the
collection loops irrelevant. -/
theorem pySortStrings_perm_invariant {l1 l2 : List String} (h : l1.Perm l2) :
    pySortStrings l1 = pySortStrings l2 :=
  List.eq_of_perm_of_sorted
    (((pySortStrings_perm l1).trans h).trans (pySortStrings_perm l2).symm)
    (pySortStrings_sorted l1) (pySortStrings_sorted l2)

theorem assignIdsStr_perm_invariant {l1 l2 : List String} (h : l1.Perm l2) :
    assignIdsStr l1 = assignIdsStr l2 := by
  unfold assignIdsStr
  rw [pySortStrings_perm_invariant h]

/-- The assigned identifiers are exactly 1, 2, ..., N by position. -/
theorem assignIdsStr_ids (l : List String) :
    (assignIdsStr l).map Prod.fst = (List.range l.length).map (fun i => i + 1) := by
  unfold assignIdsStr
  rw [List.map_map]
  rw [show (Prod.fst ∘ fun p : Nat × String => (p.1 + 1, p.2))
      = (fun i => i + 1) ∘ Prod.fst from rfl]
  rw [← List.map_map, List.enum_map_fst, (pySortStrings_perm l).length_eq]

/-- The keys of the assigned rows are the sorted keys. -/
theorem assignIdsStr_keys (l : List String) :
    (assignIdsStr l).map Prod.snd = pySortStrings l := by
  unfold assignIdsStr
  rw [List.map_map]
  rw [show (Prod.snd ∘ fun p : Nat × String => (p.1 + 1, p.2)) = Prod.snd from rfl]
  rw [List.enum_map_snd]

theorem pySortByKey_perm {β : Type} (l : List (String × β)) :
    (pySortByKey l).Perm l :=
  List.perm_insertionSort keyLeP l

theorem pySortByKey_sorted {β : Type} (l : List (String × β)) :
    List.Sorted keyLeP (pySortByKey l) :=
  List.sorted_insertionSort keyLeP l

/-- The identifiers assigned by the key/value variant are 1, 2, ..., N. -/
theorem assignIdsKV_ids {β : Type} (m : List (String × β)) :
    (assignIdsKV m).map Prod.fst = (List.range m.length).map (fun i => i + 1) := by
  unfold assignIdsKV
  rw [List.map_map]
  rw [show (Prod.fst ∘ fun p : Nat × String × β => (p.1 + 1, p.2.1, p.2.2))
      = (fun i => i + 1) ∘ Prod.fst from rfl]
  rw [← List.map_map, List.enum_map_fst, (pySortByKey_perm m).length_eq]

/-- The keys of the key/value variant come out sorted ascending. -/
theorem assignIdsKV_keys_sorted {β : Type} (m : List (String × β)) :
    List.Sorted strLeP ((assignIdsKV m).map (fun r => r.2.1)) := by
  unfold assignIdsKV
  rw [List.map_map]
  have h : ((fun (r : Nat × String × β) => r.2.1) ∘ fun p => (p.1 + 1, p.2.1, p.2.2))
      = (fun (p : String × β) => p.1) ∘ Prod.snd := rfl
  rw [h, ← List.map_map, List.enum_map_snd]
  exact List.Pairwise.map _ (fun a b hab => hab) (pySortByKey_sorted m)

/-! ## The driver with insert failures

`create_table` wraps the DDL in try/except, so dropping and recreating a
table always succeeds and commits.  The bulk inserts of steps 1, 3, 5, 7
and 9 (`cur.executemany`) are not inside any try block: an exception there
propagates out of the step function and crashes the script, so the stages
after it never run.  Only step 11 wraps its insert
(`psycopg2.extras.execute_values`) in try/except: a failure there is
printed and the run continues to its end.  A failed insert leaves the
freshly created table empty (the insert was never committed). -/

structure RunState where
  db : DB
  attempted : List Nat
  crashed : Bool
deriving DecidableEq

/-- Steps 1, 3, 5, 7, 9: create (always commits), then insert; an insert
failure propagates, leaving the table created but empty. -/
def stageExcStrict (stepNo : Nat) (fail : Bool)
    (clear : DB → DB) (write : DB → DB) (st : RunState) : RunState :=
  if st.crashed then st
  else if fail then
    { db := clear st.db, attempted := st.attempted ++ [stepNo], crashed := true }
  else
    { db := write (clear st.db), attempted := st.attempted ++ [stepNo], crashed := false }

/-- Step 11: the insert failure is caught, the run continues. -/
def stageExcCaught (stepNo : Nat) (fail : Bool)
    (clear : DB → DB) (write : DB → DB) (st : RunState) : RunState :=
  if st.crashed then st
  else if fail then
    { db := clear st.db, attempted := st.attempted ++ [stepNo], crashed := false }
  else
    { db := write (clear st.db), attempted := st.attempted ++ [stepNo], crashed := false }

/-- The driver under an insert-failure oracle `fail` (indexed by the step
number used in the source: 1, 3, 5, 7, 9, 11). -/
def runPipelineExc (fail : Nat → Bool) (file : List String) (db : DB) : RunState :=
  stageExcCaught 11 (fail 11)
    (fun d => { d with orderDetail := [] })
    (step11_create_orderdetail_table file)
    (stageExcStrict 9 (fail 9)
      (fun d => { d with product := [] })
      (step9_create_product_table file)
      (stageExcStrict 7 (fail 7)
        (fun d => { d with productCategory := [] })
        (step7_create_productcategory_table file)
        (stageExcStrict 5 (fail 5)
          (fun d => { d with customer := [] })
          (step5_create_customer_table file)
          (stageExcStrict 3 (fail 3)
            (fun d => { d with country := [] })
            (step3_create_country_table file)
            (stageExcStrict 1 (fail 1)
              (fun d => { d with region := [] })
              (step1_create_region_table file)
              { db := db, attempted := [], crashed := false })))))

/-! ## Decimal printing lemmas for the date formatter -/

theorem strToList_append (a b : String) : (a ++ b).toList = a.toList ++ b.toList := rfl

theorem natReprAux_fuel_irrel (f1 : Nat) :
    ∀ (f2 n : Nat), n < f1 → n < f2 → natReprAux f1 n = natReprAux f2 n := by
  induction f1 with
  | zero => intro f2 n h1; omega
  | succ f ih =>
    intro f2 n h1 h2
    cases f2 with
    | zero => omega
    | succ g =>
      simp only [natReprAux]
      by_cases h : n < 10
      · simp [h]
      · simp only [h, if_false]
        rw [ih g (n / 10) (by omega) (by omega)]

theorem natRepr_one_digit (n : Nat) (h : n < 10) :
    (natRepr n).toList = [digitChar n] := by
  simp [natRepr, natReprAux, h]

theorem natRepr_two_digits (n : Nat) (h1 : 10 ≤ n) (h2 : n ≤ 99) :
    (natRepr n).toList = [digitChar (n / 10), digitChar (n % 10)] := by
  have hn : ¬ n < 10 := by omega
  simp only [natRepr, natReprAux, hn, if_false]
  rw [natReprAux_fuel_irrel n (n / 10 + 1) (n / 10) (by omega) (by omega)]
  have hd : n / 10 < 10 := by omega
  simp [natReprAux, hd]

theorem natRepr_four_digits (y : Nat) (h1 : 1000 ≤ y) (h2 : y ≤ 9999) :
    (natRepr y).toList
      = [digitChar (y / 1000), digitChar (y / 100 % 10),
         digitChar (y / 10 % 10), digitChar (y % 10)] := by
  have hy : ¬ y < 10 := by omega
  simp only [natRepr, natReprAux, hy, if_false]
  rw [natReprAux_fuel_irrel y (y / 10 + 1) (y / 10) (by omega) (by omega)]
  have h10 : ¬ y / 10 < 10 := by omega
  simp only [natReprAux, h10, if_false]
  rw [natReprAux_fuel_irrel (y / 10) (y / 10 / 10 + 1) (y / 10 / 10) (by omega) (by omega)]
  have h100 : ¬ y / 10 / 10 < 10 := by omega
  simp only [natReprAux, h100, if_false]
  rw [natReprAux_fuel_irrel (y / 10 / 10) (y / 10 / 10 / 10 + 1) (y / 10 / 10 / 10)
    (by omega) (by omega)]
  have h1000 : y / 10 / 10 / 10 < 10 := by omega
  simp only [natReprAux, h1000, if_true]
  have e1 : y / 10 / 10 / 10 = y / 1000 := by omega
  have e2 : y / 10 / 10 % 10 = y / 100 % 10 := by
    have : y / 10 / 10 = y / 100 := by omega
    rw [this]
  rw [e1, e2]
  simp

theorem pad2_toList (n : Nat) (h : n ≤ 99) :
    (pad2 n).toList = [digitChar (n / 10), digitChar (n % 10)] := by
  by_cases h10 : n < 10
  · have hd : n / 10 = 0 := by omega
    have hm : n % 10 = n := by omega
    simp only [pad2, h10, if_true, strToList_append, natRepr_one_digit n h10, hd, hm]
    rfl
  · simp only [pad2, h10, if_false]
    exact natRepr_two_digits n (by omega) h

theorem isDigit_digitChar (k : Nat) (h : k ≤ 9) : (digitChar k).isDigit = true := by
  interval_cases k <;> decide

theorem digitVal_digitChar (k : Nat) (h : k ≤ 9) : digitVal (digitChar k) = k := by
  interval_cases k <;> decide

/-- `%Y` consumes the four leading digits and reconstructs the year. -/
theorem matchY_digits (y : Nat) (h1 : y ≤ 9999) (rest : List Char) :
    matchY ((natRepr y).toList ++ rest) = some (y, rest) ∨ y < 1000 := by
  by_cases hy : 1000 ≤ y
  · left
    rw [natRepr_four_digits y hy h1]
    simp only [List.cons_append, List.nil_append, matchY]
    rw [isDigit_digitChar _ (by omega), isDigit_digitChar _ (by omega),
      isDigit_digitChar _ (by omega), isDigit_digitChar _ (by omega)]
    simp only [Bool.and_self, if_true]
    rw [digitVal_digitChar _ (by omega), digitVal_digitChar _ (by omega),
      digitVal_digitChar _ (by omega), digitVal_digitChar _ (by omega)]
    have : 1000 * (y / 1000) + 100 * (y / 100 % 10) + 10 * (y / 10 % 10) + y % 10 = y := by
      omega
    rw [this]
  · right; omega

/-- The `%m` candidates on a zero-padded month: the month itself first,
then (for the two-digit months) the spurious one-digit parse of the
leading `1`, which the backtracking never reaches here. -/
theorem monthCands_pad2 (m : Nat) (h1 : 1 ≤ m) (h2 : m ≤ 12) (rest : List Char) :
    monthCands ((pad2 m).toList ++ rest)
      = (m, rest) :: (if 10 ≤ m then [(1, digitChar (m % 10) :: rest)] else []) := by
  rw [pad2_toList m (by omega)]
  interval_cases m <;> simp +decide [monthCands, digitVal, digitChar]

/-- The `%d` candidates on a zero-padded day: the day itself (consuming
both characters) first. -/
theorem dayCands_pad2 (d : Nat) (h1 : 1 ≤ d) (h2 : d ≤ 31) :
    dayCands ((pad2 d).toList)
      = (d, []) :: (if 10 ≤ d then [(d / 10, [digitChar (d % 10)])] else []) := by
  rw [pad2_toList d (by omega)]
  interval_cases d <;> simp +decide [dayCands, digitVal, digitChar]

/-- `strptime("%Y%m%d")` on a well-formed eight-digit date recovers the
components. -/
theorem strptimeYmd_roundtrip (y m d : Nat)
    (hy1 : 1000 ≤ y) (hy2 : y ≤ 9999) (hm1 : 1 ≤ m) (hm2 : m ≤ 12)
    (hd1 : 1 ≤ d) (hd2 : d ≤ daysInMonth y m) :
    strptimeYmd (natRepr y ++ pad2 m ++ pad2 d) = some (y, m, d) := by
  have hd31 : d ≤ 31 := by
    have : daysInMonth y m ≤ 31 := by
      unfold daysInMonth
      split_ifs <;> simp
    omega
  unfold strptimeYmd
  rw [show (natRepr y ++ pad2 m ++ pad2 d).toList
      = (natRepr y).toList ++ ((pad2 m).toList ++ (pad2 d).toList) from by
    simp [strToList_append]]
  rcases matchY_digits y hy2 ((pad2 m).toList ++ (pad2 d).toList) with hY | hY
  · rw [hY]
    dsimp only
    rw [monthCands_pad2 m hm1 hm2 ((pad2 d).toList)]
    simp only [findFullMD]
    rw [dayCands_pad2 d hd1 hd31]
    simp only [List.find?]
    have hde : (([] : List Char).isEmpty : Bool) = true := rfl
    simp only [hde]
    have hyd : (1 ≤ y && 1 ≤ d && d ≤ daysInMonth y m) = true := by
      simp only [Bool.and_eq_true, decide_eq_true_eq]
      omega
    simp [hyd]
  · omega

/-! ## Trimming lemmas -/

theorem dropWhile_idem (p : Char → Bool) (l : List Char) :
    (l.dropWhile p).dropWhile p = l.dropWhile p := by
  induction l with
  | nil => rfl
  | cons x t ih =>
    by_cases h : p x = true
    · simp [List.dropWhile_cons, h, ih]
    · simp [List.dropWhile_cons, h]

theorem dropWhile_head_false (p : Char → Bool) (l : List Char) (x : Char)
    (xs : List Char) (h : l.dropWhile p = x :: xs) : p x = false := by
  induction l with
  | nil => simp [List.dropWhile] at h
  | cons y t ih =>
    by_cases hy : p y = true
    · simp [List.dropWhile_cons, hy] at h
      exact ih h
    · simp [List.dropWhile_cons, hy] at h
      rw [← h.1]
      simpa using hy

theorem dropWhile_suffix_decomp (p : Char → Bool) (l : List Char) :
    ∃ t, l = t ++ l.dropWhile p := by
  induction l with
  | nil => exact ⟨[], rfl⟩
  | cons x xs ih =>
    by_cases h : p x = true
    · rcases ih with ⟨t, ht⟩
      exact ⟨x :: t, by simp [List.dropWhile_cons, h, ← ht]⟩
    · exact ⟨[], by simp [List.dropWhile_cons, h]⟩

/-- `strip` is idempotent: a stripped string strips to itself. -/
theorem pyStrip_idem (s : String) : pyStrip (pyStrip s) = pyStrip s := by
  unfold pyStrip
  have htl : ∀ l : List Char, (String.mk l).toList = l := fun _ => rfl
  rw [htl]
  set l1 := s.toList.dropWhile pyIsSpace with hl1
  set l2r := l1.reverse.dropWhile pyIsSpace with hl2r
  have step1 : l2r.reverse.dropWhile pyIsSpace = l2r.reverse := by
    cases he : l2r.reverse with
    | nil => rfl
    | cons x xs =>
      have hpx : pyIsSpace x = false := by
        rcases dropWhile_suffix_decomp pyIsSpace l1.reverse with ⟨t, ht⟩
        have hl1e : l1 = l2r.reverse ++ t.reverse := by
          rw [← hl2r] at ht
          have := congrArg List.reverse ht
          simpa using this
        rw [he] at hl1e
        have : l1.dropWhile pyIsSpace = l1 := by
          rw [hl1, dropWhile_idem]
        rw [hl1e] at this
        exact dropWhile_head_false pyIsSpace (x :: (xs ++ t.reverse)) x
          (xs ++ t.reverse) this
      simp [List.dropWhile_cons, hpx]
  rw [step1]
  rw [List.reverse_reverse, dropWhile_idem]

/-- Membership in a first-write-wins fold comes from the record list. -/
theorem mem_foldl_insertIfAbsent {β : Type} {l : List (String × β)}
    {init : List (String × β)} {p : String × β}
    (h : p ∈ l.foldl insertIfAbsent init) : p ∈ init ∨ p ∈ l := by
  induction l generalizing init with
  | nil => exact Or.inl h
  | cons q t ih =>
    simp only [List.foldl_cons] at h
    rcases ih h with h2 | h2
    · unfold insertIfAbsent at h2
      split at h2
      · exact Or.inl h2
      · rcases mem_dinsert h2 with h3 | h3
        · right
          rw [h3]
          exact List.mem_cons_self _ _
        · exact Or.inl h3
    · exact Or.inr (List.mem_cons_of_mem _ h2)

/-! ## Single-token customer names -/

theorem splitFirstSpace_eq_none (cs : List Char) :
    splitFirstSpace cs = none ↔ ' ' ∉ cs := by
  induction cs with
  | nil => simp [splitFirstSpace]
  | cons c t ih =>
    by_cases h : c = ' '
    · subst h
      simp [splitFirstSpace]
    · simp only [splitFirstSpace, h, if_false, List.mem_cons]
      rw [Option.map_eq_none']
      constructor
      · intro hn
        push_neg
        exact ⟨fun he => h he.symm, ih.mp hn⟩
      · intro hn
        apply ih.mpr
        intro hm
        exact hn (Or.inr hm)

/-- A full name without a space keeps the whole name as FirstName and
stores the empty string as LastName. -/
theorem splitName_no_space (name : String) (h : ' ' ∉ name.toList) :
    splitName name = (name, "") := by
  unfold splitName
  rw [show splitFirstSpace name.toList = none from (splitFirstSpace_eq_none _).mpr h]

/-- Every key of the customer resolver contains a space: the f-string
glues FirstName and LastName with one. -/
theorem customerKey_contains_space (fn ln : String) :
    ' ' ∈ (customerKey fn ln).toList := by
  unfold customerKey
  rw [strToList_append, strToList_append]
  simp [show (" " : String).toList = [' '] from rfl]

theorem mem_step6_dict (db : DB) (k : String) (v : Nat)
    (h : (k, v) ∈ step6_get_customer_dict db) :
    ∃ r ∈ db.customer, k = customerKey r.2.1 r.2.2.1 ∧ v = r.1 := by
  unfold step6_get_customer_dict at h
  rcases mem_foldl_dinsert (fun r => customerKey r.2.1 r.2.2.1) (fun r => r.1)
      db.customer [] (k, v) h with h2 | ⟨r, hr, he⟩
  · simp at h2
  · exact ⟨r, hr, congrArg Prod.fst he, congrArg Prod.snd he⟩

/-- The OrderDetail lookup of a spaceless name always misses: every
dictionary key contains a space. -/
theorem dget_step6_no_space (db : DB) (name : String)
    (h : ' ' ∉ name.toList) :
    dget (step6_get_customer_dict db) name = none := by
  unfold dget
  rw [Option.map_eq_none', List.find?_eq_none]
  intro p hp
  simp only [decide_eq_true_eq]
  intro he
  rcases mem_step6_dict db p.1 p.2 (by simpa using hp) with ⟨r, _, hk, _⟩
  apply h
  rw [← he, hk]
  exact customerKey_contains_space _ _

/-- The length of a filterMap counts the passing elements. -/
theorem length_filterMap_eq_countP {α β : Type} (f : α → Option β) (l : List α) :
    (l.filterMap f).length = l.countP (fun x => (f x).isSome) := by
  induction l with
  | nil => rfl
  | cons x t ih =>
    simp only [List.filterMap_cons, List.countP_cons]
    cases h : f x <;> simp [h, ih]

/-! ## Lines below a column threshold are skipped -/

theorem step1_collect_skip (hdr line : String) (pre post : List String)
    (h : (pySplit (pyStrip line) '\t').length = 3) :
    step1_collect (hdr :: (pre ++ line :: post))
      = step1_collect (hdr :: (pre ++ post)) := by
  unfold step1_collect
  simp only [List.drop_succ_cons, List.drop_zero]
  apply foldl_skip_middle
  intro acc
  by_cases h1 : pyStrip line = ""
  · simp [h1]
  · have h2 : ¬ 4 < (pySplit (pyStrip line) '\t').length := by omega
    simp [h1, h2]

theorem step3_collect_skip (hdr line : String) (pre post : List String)
    (rd : List (String × Nat))
    (h : (pySplit (pyStrip line) '\t').length = 3) :
    step3_collect (hdr :: (pre ++ line :: post)) rd
      = step3_collect (hdr :: (pre ++ post)) rd := by
  unfold step3_collect
  simp only [List.drop_succ_cons, List.drop_zero]
  apply foldl_skip_middle
  intro acc
  by_cases h1 : pyStrip line = ""
  · simp [h1]
  · have h2 : (pySplit (pyStrip line) '\t').length < 5 := by omega
    simp [h1, h2]

theorem step5_collect_skip (hdr line : String) (pre post : List String)
    (cd : List (String × Nat))
    (h : (pySplit (pyStrip line) '\t').length = 3) :
    step5_collect (hdr :: (pre ++ line :: post)) cd
      = step5_collect (hdr :: (pre ++ post)) cd := by
  rw [step5_collect_eq, step5_collect_eq]
  simp only [List.drop_succ_cons, List.drop_zero]
  rw [List.filterMap_append, List.filterMap_append, List.filterMap_cons]
  rw [show step5_line cd line = none from by
    simp only [step5_line]
    by_cases h1 : pyStrip line = ""
    · simp [h1]
    · have h2 : (pySplit (pyStrip line) '\t').length < 4 := by omega
      simp [h1, h2]]

theorem step7_collect_skip (hdr line : String) (pre post : List String)
    (h : (pySplit (pyStrip line) '\t').length = 3) :
    step7_collect (hdr :: (pre ++ line :: post))
      = step7_collect (hdr :: (pre ++ post)) := by
  unfold step7_collect
  simp only [List.drop_succ_cons, List.drop_zero]
  apply foldl_skip_middle
  intro acc
  by_cases h1 : pyStrip line = ""
  · simp [h1]
  · have h2 : (pySplit (pyStrip line) '\t').length ≤ 7 := by omega
    simp [h1, h2]

theorem step9_collect_skip (hdr line : String) (pre post : List String)
    (cd : List (String × Nat))
    (h : (pySplit (pyStrip line) '\t').length = 3) :
    step9_collect (hdr :: (pre ++ line :: post)) cd
      = step9_collect (hdr :: (pre ++ post)) cd := by
  unfold step9_collect
  simp only [List.drop_succ_cons, List.drop_zero]
  apply foldl_skip_middle
  intro acc
  by_cases h1 : pyStrip line = ""
  · simp [h1]
  · have h2 : (pySplit (pyStrip line) '\t').length ≤ 8 := by omega
    simp [h1, h2]

theorem step11_collect_skip (hdr line : String) (pre post : List String)
    (cd pd : List (String × Nat))
    (h : (pySplit (pyStrip line) '\t').length = 3) :
    step11_collect (hdr :: (pre ++ line :: post)) cd pd
      = step11_collect (hdr :: (pre ++ post)) cd pd := by
  unfold step11_collect
  simp only [List.drop_succ_cons, List.drop_zero]
  rw [foldl_skip_middle _ line (fun acc => by
    by_cases h1 : pyStrip line = ""
    · simp [h1]
    · have h2 : (pySplit (pyStrip line) '\t').length ≤ 10 := by omega
      simp [h1, h2]) pre post ([], 1)]

/-- A line whose (stripped) customer name has no space contributes no
OrderDetail row: the resolver key always contains a space, so the lookup
misses and the whole line is skipped. -/
theorem step11_collect_skip_no_space (db : DB) (hdr line : String)
    (pre post : List String) (pd : List (String × Nat))
    (h : ' ' ∉ (pyStrip ((pySplit (pyStrip line) '\t').getD 0 "")).toList) :
    step11_collect (hdr :: (pre ++ line :: post)) (step6_get_customer_dict db) pd
      = step11_collect (hdr :: (pre ++ post)) (step6_get_customer_dict db) pd := by
  unfold step11_collect
  simp only [List.drop_succ_cons, List.drop_zero]
  rw [foldl_skip_middle _ line (fun acc => by
    by_cases h1 : pyStrip line = ""
    · simp [h1]
    · by_cases h2 : (pySplit (pyStrip line) '\t').length ≤ 10
      · simp [h1, h2]
      · have h3 : dget (step6_get_customer_dict db)
            (pyStrip ((pySplit (pyStrip line) '\t')[0]?.getD "")) = none :=
          dget_step6_no_space db _ (by simpa using h)
        by_cases h4 : pyStrip ((pySplit (pyStrip line) '\t')[0]?.getD "") = ""
        · simp [h1, h2, h4]
        · simp [h1, h2, h4, h3]) pre post ([], 1)]

/-! ## Referential integrity infrastructure -/

theorem mem_assignIdsKV {β : Type} {m : List (String × β)} {r : Nat × String × β}
    (h : r ∈ assignIdsKV m) : (r.2.1, r.2.2) ∈ m := by
  unfold assignIdsKV at h
  rcases List.mem_map.mp h with ⟨⟨i, q⟩, hiq, he⟩
  have hq : q ∈ pySortByKey m := by
    rw [← List.enum_map_snd (pySortByKey m)]
    exact List.mem_map_of_mem Prod.snd hiq
  have hq2 : q ∈ m := (pySortByKey_perm m).subset hq
  rw [← he]
  simpa using hq2

theorem mem_step2_dict (db : DB) (k : String) (v : Nat)
    (h : (k, v) ∈ step2_get_region_dict db) : ∃ r ∈ db.region, r.1 = v := by
  unfold step2_get_region_dict at h
  rcases mem_foldl_dinsert (fun p => p.2) (fun p => p.1) db.region [] (k, v) h with
    h2 | ⟨r, hr, he⟩
  · simp at h2
  · exact ⟨r, hr, (congrArg Prod.snd he).symm⟩

theorem mem_step4_dict (db : DB) (k : String) (v : Nat)
    (h : (k, v) ∈ step4_get_country_dict db) : ∃ r ∈ db.country, r.1 = v := by
  unfold step4_get_country_dict at h
  rcases mem_foldl_dinsert (fun p => p.2.1) (fun p => p.1) db.country [] (k, v) h with
    h2 | ⟨r, hr, he⟩
  · simp at h2
  · exact ⟨r, hr, (congrArg Prod.snd he).symm⟩

theorem mem_step8_dict (db : DB) (k : String) (v : Nat)
    (h : (k, v) ∈ step8_get_category_dict db) : ∃ r ∈ db.productCategory, r.1 = v := by
  unfold step8_get_category_dict at h
  rcases mem_foldl_dinsert (fun p => p.2.1) (fun p => p.1) db.productCategory [] (k, v) h with
    h2 | ⟨r, hr, he⟩
  · simp at h2
  · exact ⟨r, hr, (congrArg Prod.snd he).symm⟩

theorem mem_step10_dict (db : DB) (k : String) (v : Nat)
    (h : (k, v) ∈ step10_get_product_dict db) : ∃ r ∈ db.product, r.1 = v := by
  unfold step10_get_product_dict at h
  rcases mem_foldl_dinsert (fun p => p.2.1) (fun p => p.1) db.product [] (k, v) h with
    h2 | ⟨r, hr, he⟩
  · simp at h2
  · exact ⟨r, hr, (congrArg Prod.snd he).symm⟩

theorem mem_step6_dict_id (db : DB) (k : String) (v : Nat)
    (h : (k, v) ∈ step6_get_customer_dict db) : ∃ r ∈ db.customer, r.1 = v := by
  rcases mem_step6_dict db k v h with ⟨r, hr, _, he⟩
  exact ⟨r, hr, he.symm⟩

/-- Every region identifier stored by the country collection loop comes
from the region dictionary. -/
theorem step3_collect_values (file : List String) (rd : List (String × Nat)) :
    ∀ p ∈ step3_collect file rd, ∃ q ∈ rd, p.2 = q.2 := by
  unfold step3_collect
  refine foldl_preserve
    (fun (acc : List (String × Nat)) => ∀ p ∈ acc, ∃ q ∈ rd, p.2 = q.2) _ _ _ ?_ ?_
  · intro p hp
    simp at hp
  · intro acc raw hP p hp
    by_cases h1 : pyStrip raw = ""
    · simp only [h1, if_true] at hp
      exact hP p hp
    · simp only [h1, if_false] at hp
      by_cases h2 : (pySplit (pyStrip raw) '\t').length < 5
      · simp only [if_pos h2] at hp
        exact hP p hp
      · simp only [if_neg h2] at hp
        by_cases h3 : pyStrip ((pySplit (pyStrip raw) '\t').getD 3 "") = ""
          ∨ pyStrip ((pySplit (pyStrip raw) '\t').getD 4 "") = ""
        · rw [if_pos (by simpa using h3)] at hp
          exact hP p hp
        · rw [if_neg (by simpa using h3)] at hp
          cases hd : dget rd (pyStrip ((pySplit (pyStrip raw) '\t').getD 4 "")) with
          | none =>
            rw [hd] at hp
            exact hP p hp
          | some rid =>
            rw [hd] at hp
            rcases mem_dinsert hp with he | hm
            · refine ⟨(pyStrip ((pySplit (pyStrip raw) '\t').getD 4 ""), rid),
                dget_some_mem hd, ?_⟩
              rw [he]
            · exact hP p hm

/-- A customer row accepted by the per-line extraction carries a country
identifier that resolved against the country dictionary. -/
theorem step5_line_fk (cd : List (String × Nat)) (raw : String)
    (r : String × String × String × String × Nat)
    (h : step5_line cd raw = some r) : ∃ q ∈ cd, r.2.2.2.2 = q.2 := by
  simp only [step5_line] at h
  by_cases h1 : pyStrip raw = ""
  · simp [h1] at h
  · by_cases h2 : (pySplit (pyStrip raw) '\t').length < 4
    · simp [h1, h2] at h
    · simp only [h1, h2, if_false] at h
      cases hd : dget cd (pyStrip ((pySplit (pyStrip raw) '\t').getD 3 "")) with
      | none =>
        rw [hd] at h
        simp at h
      | some cid =>
        rw [hd] at h
        simp only [Option.some.injEq] at h
        refine ⟨(pyStrip ((pySplit (pyStrip raw) '\t').getD 3 ""), cid),
          dget_some_mem hd, ?_⟩
        rw [← h]

/-- A product sub-record accepted by `step9_sub` carries a category
identifier that resolved against the category dictionary. -/
theorem step9_sub_fk (cd : List (String × Nat)) (t : String × String × String)
    (r : String × Rat × Nat) (h : step9_sub cd t = some r) :
    ∃ q ∈ cd, r.2.2 = q.2 := by
  simp only [step9_sub] at h
  by_cases h1 : t.1 = ""
  · simp [h1] at h
  · simp only [h1, if_false] at h
    cases h2 : pyFloat t.2.2 with
    | none =>
      rw [h2] at h
      simp at h
    | some up =>
      rw [h2] at h
      cases h3 : dget cd t.2.1 with
      | none =>
        rw [h3] at h
        simp at h
      | some cid =>
        rw [h3] at h
        simp only [Option.some.injEq] at h
        exact ⟨(t.2.1, cid), dget_some_mem h3, by rw [← h]⟩

/-- An order sub-record accepted by `step11_sub` carries a product
identifier that resolved against the product dictionary. -/
theorem step11_sub_fk (pd : List (String × Nat)) (t : String × String × String)
    (v : Nat × String × Int) (h : step11_sub pd t = some v) :
    ∃ q ∈ pd, v.1 = q.2 := by
  simp only [step11_sub] at h
  by_cases h1 : t.1 = ""
  · simp [h1] at h
  · simp only [h1, if_false] at h
    cases h2 : dget pd t.1 with
    | none =>
      rw [h2] at h
      simp at h
    | some pid =>
      rw [h2] at h
      cases h3 : pyInt t.2.1 with
      | none =>
        rw [h3] at h
        simp at h
      | some qty =>
        rw [h3] at h
        cases h4 : pyDate t.2.2 with
        | none =>
          rw [h4] at h
          simp at h
        | some ds =>
          rw [h4] at h
          simp only [Option.some.injEq] at h
          exact ⟨(t.1, pid), dget_some_mem h2, by rw [← h]⟩

/-- Every OrderDetail row emitted by the collection loop carries a
customer identifier from the customer dictionary and a product identifier
from the product dictionary. -/
theorem step11_collect_fk (file : List String) (cd pd : List (String × Nat)) :
    ∀ r ∈ step11_collect file cd pd,
      (∃ q ∈ cd, r.2.1 = q.2) ∧ (∃ q ∈ pd, r.2.2.1 = q.2) := by
  unfold step11_collect
  refine foldl_preserve
    (fun (acc : List (Nat × Nat × Nat × String × Int) × Nat) =>
      ∀ r ∈ acc.1, (∃ q ∈ cd, r.2.1 = q.2) ∧ (∃ q ∈ pd, r.2.2.1 = q.2))
    _ _ _ ?_ ?_
  · intro r hr
    simp at hr
  · intro acc raw hP
    by_cases h1 : pyStrip raw = ""
    · simpa [h1] using hP
    · by_cases h2 : (pySplit (pyStrip raw) '\t').length ≤ 10
      · simpa [h1, h2] using hP
      · simp only [h1, h2, if_false]
        by_cases h3 : pyStrip ((pySplit (pyStrip raw) '\t').getD 0 "") = ""
          ∨ pyStrip ((pySplit (pyStrip raw) '\t').getD 5 "") = ""
          ∨ pyStrip ((pySplit (pyStrip raw) '\t').getD 9 "") = ""
          ∨ pyStrip ((pySplit (pyStrip raw) '\t').getD 10 "") = ""
        · rw [if_pos (by simpa [or_assoc] using h3)]
          exact hP
        · rw [if_neg (by simpa [or_assoc, and_assoc] using h3)]
          cases hd : dget cd (pyStrip ((pySplit (pyStrip raw) '\t').getD 0 "")) with
          | none => exact hP
          | some cid =>
            dsimp only
            rw [step11_line_eq_pair]
            intro r hr
            rcases List.mem_append.mp hr with hr | hr
            · exact hP r hr
            · rcases List.mem_map.mp hr with ⟨⟨i, v⟩, hiv, he⟩
              have hv : v ∈ (((pySplit (pyStrip ((pySplit (pyStrip raw) '\t').getD 5 "")) ';').map
                  pyStrip).zip
                    (((pySplit (pyStrip ((pySplit (pyStrip raw) '\t').getD 9 "")) ';').map
                      pyStrip).zip
                      ((pySplit (pyStrip ((pySplit (pyStrip raw) '\t').getD 10 "")) ';').map
                        pyStrip))).filterMap (step11_sub pd) := by
                have : v ∈ List.map Prod.snd (List.enumFrom acc.2 _) := List.mem_map_of_mem _ hiv
                rwa [List.enumFrom_map_snd] at this
              rcases List.mem_filterMap.mp hv with ⟨t, _, hsub⟩
              constructor
              · rw [← he]
                exact ⟨(pyStrip ((pySplit (pyStrip raw) '\t').getD 0 ""), cid),
                  dget_some_mem hd, rfl⟩
              · rw [← he]
                simpa using step11_sub_fk pd t v hsub

/-! ## Trimming invariants of the category and product stages -/

theorem step7_subrecords_trimmed (file : List String) :
    ∀ p ∈ step7_subrecords file,
      pyStrip p.1 = p.1 ∧ p.1 ≠ "" ∧ pyStrip p.2 = p.2 := by
  intro p hp
  unfold step7_subrecords at hp
  rcases List.mem_flatMap.mp hp with ⟨raw, _, hpl⟩
  simp only [step7_lineRecs] at hpl
  split_ifs at hpl with ha hb hc
  · simp at hpl
  · simp at hpl
  · simp at hpl
  rw [List.mem_filter] at hpl
  obtain ⟨hz, hne⟩ := hpl
  obtain ⟨c, d⟩ := p
  rcases List.of_mem_zip hz with ⟨hc, hd⟩
  rcases List.mem_map.mp hc with ⟨c0, _, hc0⟩
  rcases List.mem_map.mp hd with ⟨d0, _, hd0⟩
  refine ⟨?_, by simpa using hne, ?_⟩
  · rw [← hc0]
    exact pyStrip_idem c0
  · rw [← hd0]
    exact pyStrip_idem d0

theorem step9_sub_name (cd : List (String × Nat)) (t : String × String × String)
    (r : String × Rat × Nat) (h : step9_sub cd t = some r) :
    r.1 = t.1 ∧ t.1 ≠ "" := by
  simp only [step9_sub] at h
  by_cases h1 : t.1 = ""
  · simp [h1] at h
  · simp only [h1, if_false] at h
    cases h2 : pyFloat t.2.2 with
    | none => rw [h2] at h; simp at h
    | some up =>
      rw [h2] at h
      cases h3 : dget cd t.2.1 with
      | none => rw [h3] at h; simp at h
      | some cid =>
        rw [h3] at h
        simp only [Option.some.injEq] at h
        exact ⟨by rw [← h], h1⟩

theorem step9_subrecords_trimmed (file : List String) (cd : List (String × Nat)) :
    ∀ p ∈ step9_subrecords file cd, pyStrip p.1 = p.1 ∧ p.1 ≠ "" := by
  intro p hp
  unfold step9_subrecords at hp
  rcases List.mem_flatMap.mp hp with ⟨raw, _, hpl⟩
  simp only [step9_lineRecs] at hpl
  split_ifs at hpl with ha hb hc
  · simp at hpl
  · simp at hpl
  · simp at hpl
  rcases List.mem_filterMap.mp hpl with ⟨t, ht, hsub⟩
  rcases step9_sub_name cd t p hsub with ⟨he, hne⟩
  obtain ⟨tn, tc, tp⟩ := t
  rcases List.of_mem_zip ht with ⟨htn, _⟩
  rcases List.mem_map.mp htn with ⟨n0, _, hn0⟩
  constructor
  · rw [he, ← hn0]
    exact pyStrip_idem n0
  · rw [he]
    exact hne

/-! ## Example input files -/

def exHeader : String :=
  "Name\tAddress\tCity\tCountry\tRegion\tProductName\tProductCategory\tProductCategoryDescription\tUnitPrice\tQuantity\tOrderDate"

/-- The end-to-end scenario line of the specification. -/
def janeLine : String :=
  "Jane Doe\t1 Main St\tSpringfield\tUSA\tNorth America\tCola;Chips\tBeverages;Snacks\tFizzy;Salty\t2.50;1.00\t3;2\t20230101;20230102"

def janeFile : List String := [exHeader, janeLine]

/-- Two source lines with the same customer key (name, address, city,
country). -/
def dupCustomerFile : List String :=
  [exHeader,
   "Jane Doe\tMain\tCity\tUSA\tEurope",
   "Jane Doe\tMain\tCity\tUSA\tEurope"]

/-- Same category name twice with different descriptions, in input order
(Beverages, Hot drinks) then (Beverages, Cold drinks). -/
def catTwiceFile : List String :=
  [exHeader,
   "Jane Doe\tMain\tCity\tUSA\tEurope\tCola\tBeverages\tHot drinks",
   "Jane Doe\tMain\tCity\tUSA\tEurope\tCola\tBeverages\tCold drinks"]

/-- A category sub-record with an empty description: categories
`Beverages;Snacks` against descriptions `Fizzy;` (the second description
is empty after trimming). -/
def emptyDescFile : List String :=
  [exHeader,
   "Jane Doe\tMain\tCity\tUSA\tEurope\tCola;Crisps\tBeverages;Snacks\tFizzy;"]

/-- The database reached after the Region and Country stages; the
dictionary the Customer stage resolves against is read back from it. -/
def dbAfterCountry (file : List String) (db : DB) : DB :=
  step3_create_country_table file (step1_create_region_table file db)

/-! ## The claims -/

/-- C3: for a fixed input file, the pipeline is a pure function of the
file alone: two runs against any two stores (in particular two fresh empty
ones) produce identical identifier assignments and identical rows in all
six tables, because every stage drops and rebuilds its table and resolves
only against tables rebuilt earlier in the same run. -/
theorem pipeline_deterministic (file : List String) (db1 db2 : DB) :
    runPipeline file db1 = runPipeline file db2 := rfl

/-- C1 counterexample: two source lines with the same customer key yield
two Customer rows, not one; the stage does not deduplicate, so the row
count (2) differs from the number of distinct keys (1). -/
theorem customer_dedup_counterexample :
    (runPipeline dupCustomerFile emptyDB).customer
      = [(1, "Jane", "Doe", "Main", "City", 1),
         (2, "Jane", "Doe", "Main", "City", 1)] := by decide

/-- C1 (amended): the Customer stage keeps every record that passes its
checks (at least 4 columns, resolvable country): no deduplication takes
place, so the table holds one row per qualifying source line (duplicates
of the same key included, in particular the row multiset is the multiset
of collected records), not one row per distinct key. -/
theorem customer_stage_keeps_every_qualifying_line (file : List String) (db : DB) :
    (runPipeline file db).customer.length
      = (file.drop 1).countP
          (fun raw => (step5_line (step4_get_country_dict (dbAfterCountry file db)) raw).isSome)
    ∧ ((runPipeline file db).customer.map (fun r => r.2)).Perm
        (step5_collect file (step4_get_country_dict (dbAfterCountry file db))) := by
  have htable : (runPipeline file db).customer
      = ((step5_collect file (step4_get_country_dict (dbAfterCountry file db))).insertionSort
          custLeP).enum.map (fun p => (p.1 + 1, p.2)) := rfl
  constructor
  · rw [htable]
    rw [List.length_map, List.enum_length]
    rw [(List.perm_insertionSort custLeP _).length_eq]
    rw [step5_collect_eq]
    exact length_filterMap_eq_countP _ _
  · rw [htable]
    rw [List.map_map]
    rw [show ((fun (r : Nat × String × String × String × String × Nat) => r.2)
        ∘ fun p => (p.1 + 1, p.2)) = Prod.snd from rfl]
    rw [List.enum_map_snd]
    exact List.perm_insertionSort custLeP _

/-- C4: in the ProductCategory stage the stored description for a
category is the one of the first sub-record carrying that category name,
and in the Product stage the stored (price, category) for a product name
is that of the first sub-record that passes all checks; the spec example
(Beverages, Hot drinks) then (Beverages, Cold drinks) stores
"Hot drinks". -/
theorem first_write_wins (file : List String) (cd : List (String × Nat))
    (cat name : String) :
    dget (step7_collect file) cat
      = ((step7_subrecords file).find? (fun p => p.1 = cat)).map (fun p => p.2)
    ∧ dget (step9_collect file cd) name
      = ((step9_subrecords file cd).find? (fun p => p.1 = name)).map (fun p => p.2)
    ∧ (runPipeline catTwiceFile emptyDB).productCategory
      = [(1, "Beverages", "Hot drinks")] := by
  refine ⟨?_, ?_, by decide⟩
  · rw [step7_collect_eq, dget_foldl_insertIfAbsent]
    rfl
  · rw [step9_collect_eq, dget_foldl_insertIfAbsent]
    rfl

/-- C5: the identifier assigner sorts the collected distinct keys in
ascending code-point order and numbers them 1..N by position; the result
is invariant under the iteration order of the collection; each of the
four stages that collects a set or mapping of distinct keys (Region,
Country, ProductCategory, Product) comes out with sorted keys and
identifiers 1..N; and the spec example assigns Africa=1, Asia=2,
Europe=3. -/
theorem sort_then_number (file : List String) (db : DB) :
    (∀ l1 l2 : List String, l1.Perm l2 → assignIdsStr l1 = assignIdsStr l2)
    ∧ (∀ l : List String,
        (assignIdsStr l).map Prod.fst = (List.range l.length).map (fun i => i + 1))
    ∧ (∀ l : List String, List.Sorted strLeP ((assignIdsStr l).map Prod.snd))
    ∧ (runPipeline file db).region = assignIdsStr (step1_collect file)
    ∧ (runPipeline file db).country.map Prod.fst
        = (List.range (step3_collect file
            (step2_get_region_dict (step1_create_region_table file db))).length).map
          (fun i => i + 1)
    ∧ List.Sorted strLeP ((runPipeline file db).country.map (fun r => r.2.1))
    ∧ (runPipeline file db).productCategory.map Prod.fst
        = (List.range (step7_collect file).length).map (fun i => i + 1)
    ∧ List.Sorted strLeP ((runPipeline file db).productCategory.map (fun r => r.2.1))
    ∧ (runPipeline file db).product.map Prod.fst
        = (List.range (step9_collect file
            (step8_get_category_dict
              (step7_create_productcategory_table file
                (step5_create_customer_table file (dbAfterCountry file db))))).length).map
          (fun i => i + 1)
    ∧ List.Sorted strLeP ((runPipeline file db).product.map (fun r => r.2.1))
    ∧ assignIdsStr ["Asia", "Europe", "Africa"]
        = [(1, "Africa"), (2, "Asia"), (3, "Europe")] := by
  set cd8 := step8_get_category_dict
    (step7_create_productcategory_table file
      (step5_create_customer_table file (dbAfterCountry file db))) with hcd8
  have hprodid : (runPipeline file db).product.map Prod.fst
      = (List.range (step9_collect file cd8).length).map (fun i => i + 1) := by
    have he : (runPipeline file db).product
        = (pySortByKey (step9_collect file cd8)).enum.map
          (fun p => (p.1 + 1, p.2.1, p.2.2.1, p.2.2.2)) := rfl
    rw [he, List.map_map]
    rw [show (Prod.fst ∘ fun p : Nat × String × Rat × Nat =>
        (p.1 + 1, p.2.1, p.2.2.1, p.2.2.2)) = (fun i => i + 1) ∘ Prod.fst from rfl]
    rw [← List.map_map, List.enum_map_fst, (pySortByKey_perm (step9_collect file cd8)).length_eq]
  have hprodsorted : List.Sorted strLeP ((runPipeline file db).product.map (fun r => r.2.1)) := by
    have he : (runPipeline file db).product
        = (pySortByKey (step9_collect file cd8)).enum.map
          (fun p => (p.1 + 1, p.2.1, p.2.2.1, p.2.2.2)) := rfl
    rw [he, List.map_map]
    rw [show ((fun (r : Nat × String × Rat × Nat) => r.2.1)
        ∘ fun p : Nat × (String × Rat × Nat) => (p.1 + 1, p.2.1, p.2.2.1, p.2.2.2))
        = (fun (q : String × Rat × Nat) => q.1) ∘ Prod.snd from rfl]
    rw [← List.map_map, List.enum_map_snd]
    exact List.Pairwise.map _ (fun a b hab => hab) (pySortByKey_sorted (step9_collect file cd8))
  refine ⟨fun l1 l2 h => assignIdsStr_perm_invariant h,
    assignIdsStr_ids,
    ?_,
    rfl,
    assignIdsKV_ids (step3_collect file
      (step2_get_region_dict (step1_create_region_table file db))),
    assignIdsKV_keys_sorted (step3_collect file
      (step2_get_region_dict (step1_create_region_table file db))),
    assignIdsKV_ids (step7_collect file),
    assignIdsKV_keys_sorted (step7_collect file),
    hprodid,
    hprodsorted,
    by decide⟩
  intro l
  rw [assignIdsStr_keys]
  exact pySortStrings_sorted l

/-- C5 witness: the permutation-invariance clause applied to the two
iteration orders of the region set of the example. -/
theorem sort_then_number_witness :
    assignIdsStr ["Asia", "Europe", "Africa"]
      = assignIdsStr ["Africa", "Asia", "Europe"] :=
  (sort_then_number [] emptyDB).1 ["Asia", "Europe", "Africa"]
    ["Africa", "Asia", "Europe"] (by decide)

/-- C6 counterexample: an exception during the Region-stage bulk insert
is not caught (the `executemany` of steps 1 to 9 sits outside any try
block), so the run crashes and no later stage is even attempted, against
the claim that only the failing stage aborts. -/
theorem insert_exception_counterexample :
    (runPipelineExc (fun k => k = 1) janeFile emptyDB).attempted = [1]
    ∧ (runPipelineExc (fun k => k = 1) janeFile emptyDB).crashed = true
    ∧ (runPipelineExc (fun k => k = 1) janeFile emptyDB).db.region = [] := by
  exact ⟨rfl, rfl, rfl⟩

/-- C6 (amended): only the OrderDetail stage catches an exception of its
bulk insert: there the stage aborts with its table left created but
empty and the run still completes all six stages.  In the five earlier
stages, an insert exception propagates and aborts the rest of the run
(later stages are never attempted), the failing stage's table again left
created but empty.  A run with no insert failure executes all six stages
and produces exactly the `runPipeline` store. -/
theorem insert_exception_policy (file : List String) (db : DB) :
    ((runPipelineExc (fun _ => false) file db).db = runPipeline file db
      ∧ (runPipelineExc (fun _ => false) file db).attempted = [1, 3, 5, 7, 9, 11]
      ∧ (runPipelineExc (fun _ => false) file db).crashed = false)
    ∧ ((runPipelineExc (fun k => k = 11) file db).db
        = { runPipeline file db with orderDetail := [] }
      ∧ (runPipelineExc (fun k => k = 11) file db).attempted = [1, 3, 5, 7, 9, 11]
      ∧ (runPipelineExc (fun k => k = 11) file db).crashed = false)
    ∧ ((runPipelineExc (fun k => k = 1) file db).attempted = [1]
      ∧ (runPipelineExc (fun k => k = 1) file db).crashed = true
      ∧ (runPipelineExc (fun k => k = 1) file db).db.region = [])
    ∧ ((runPipelineExc (fun k => k = 3) file db).attempted = [1, 3]
      ∧ (runPipelineExc (fun k => k = 3) file db).crashed = true
      ∧ (runPipelineExc (fun k => k = 3) file db).db.country = [])
    ∧ ((runPipelineExc (fun k => k = 5) file db).attempted = [1, 3, 5]
      ∧ (runPipelineExc (fun k => k = 5) file db).crashed = true
      ∧ (runPipelineExc (fun k => k = 5) file db).db.customer = [])
    ∧ ((runPipelineExc (fun k => k = 7) file db).attempted = [1, 3, 5, 7]
      ∧ (runPipelineExc (fun k => k = 7) file db).crashed = true
      ∧ (runPipelineExc (fun k => k = 7) file db).db.productCategory = [])
    ∧ ((runPipelineExc (fun k => k = 9) file db).attempted = [1, 3, 5, 7, 9]
      ∧ (runPipelineExc (fun k => k = 9) file db).crashed = true
      ∧ (runPipelineExc (fun k => k = 9) file db).db.product = []) := by
  exact ⟨⟨rfl, rfl, rfl⟩, ⟨rfl, rfl, rfl⟩, ⟨rfl, rfl, rfl⟩, ⟨rfl, rfl, rfl⟩,
    ⟨rfl, rfl, rfl⟩, ⟨rfl, rfl, rfl⟩, ⟨rfl, rfl, rfl⟩⟩

/-- C7 counterexample: a category sub-record whose description is empty
after trimming is not skipped: with categories `Beverages;Snacks` against
descriptions `Fizzy;`, the stage stores the row (Snacks, "") with an
empty description. -/
theorem empty_description_counterexample :
    (runPipeline emptyDescFile emptyDB).productCategory
      = [(1, "Beverages", "Fizzy"), (2, "Snacks", "")] := by decide

/-- C7 (amended): every semicolon-split sub-field is trimmed before use,
and a sub-record whose name sub-field (category name, product name) is
empty after trimming is skipped — every stored category and product name
is nonempty and carries no surrounding whitespace, and stored
descriptions are trimmed.  But an empty description sub-field does not
cause a skip: the ProductCategory stage stores the category with an
empty description, as the (Snacks, "") row of the example shows. -/
theorem subfield_trimming_policy (file : List String) (db : DB) :
    (∀ r ∈ (runPipeline file db).productCategory,
      pyStrip r.2.1 = r.2.1 ∧ r.2.1 ≠ "" ∧ pyStrip r.2.2 = r.2.2)
    ∧ (∀ r ∈ (runPipeline file db).product, pyStrip r.2.1 = r.2.1 ∧ r.2.1 ≠ "")
    ∧ (2, "Snacks", "") ∈ (runPipeline emptyDescFile emptyDB).productCategory := by
  refine ⟨?_, ?_, by decide⟩
  · intro r hr
    have hmem : (r.2.1, r.2.2) ∈ step7_collect file := mem_assignIdsKV hr
    rw [step7_collect_eq] at hmem
    rcases mem_foldl_insertIfAbsent hmem with h | h
    · simp at h
    · exact step7_subrecords_trimmed file _ h
  · intro r hr
    set cd8 := step8_get_category_dict
      (step7_create_productcategory_table file
        (step5_create_customer_table file (dbAfterCountry file db))) with hcd
    have hr2 : r ∈ (pySortByKey (step9_collect file cd8)).enum.map
        (fun p => (p.1 + 1, p.2.1, p.2.2.1, p.2.2.2)) := hr
    rcases List.mem_map.mp hr2 with ⟨⟨i, q⟩, hiq, he⟩
    have hq : q ∈ pySortByKey (step9_collect file cd8) := by
      rw [← List.enum_map_snd (pySortByKey (step9_collect file cd8))]
      exact List.mem_map_of_mem Prod.snd hiq
    have hq2 : q ∈ step9_collect file cd8 := (pySortByKey_perm _).subset hq
    rw [step9_collect_eq] at hq2
    rcases mem_foldl_insertIfAbsent hq2 with h | h
    · simp at h
    · have htr := step9_subrecords_trimmed file cd8 _ h
      rw [← he]
      exact htr

/-- C8: an eight-digit `YYYYMMDD` date sub-field denoting a valid
calendar date is stored as `YYYY-MM-DD`, and the order stage processes
the sub-records of a line independently, so an unparseable date drops
only its own sub-record: the emitted rows are exactly the passing
sub-records, as the concrete line with dates `garbage;20230102` shows
(one row, dated 2023-01-02). -/
theorem date_normalization (y m d : Nat)
    (hy1 : 1000 ≤ y) (hy2 : y ≤ 9999) (hm1 : 1 ≤ m) (hm2 : m ≤ 12)
    (hd1 : 1 ≤ d) (hd2 : d ≤ daysInMonth y m) :
    pyDate (natRepr y ++ pad2 m ++ pad2 d)
      = some (natRepr y ++ "-" ++ pad2 m ++ "-" ++ pad2 d)
    ∧ (∀ (pd : List (String × Nat)) (cid : Nat)
        (subs : List (String × String × String))
        (rows : List (Nat × Nat × Nat × String × Int)) (n : Nat),
        step11_line pd cid subs (rows, n)
          = (rows ++ ((subs.filterMap (step11_sub pd)).enumFrom n).map
              (fun p => (p.1, cid, p.2.1, p.2.2.1, p.2.2.2)),
             n + (subs.filterMap (step11_sub pd)).length))
    ∧ step11_line [("Cola", 7)] 1
        [("Cola", "3", "garbage"), ("Cola", "2", "20230102")] ([], 1)
      = ([(1, 1, 7, "2023-01-02", 2)], 2) := by
  refine ⟨?_, step11_line_eq, by decide⟩
  unfold pyDate
  rw [strptimeYmd_roundtrip y m d hy1 hy2 hm1 hm2 hd1 hd2]
  rfl

/-- C8 witness: the spec example, 20230115 stored as 2023-01-15. -/
theorem date_normalization_witness : pyDate "20230115" = some "2023-01-15" := by
  have h := (date_normalization 2023 1 15 (by decide) (by decide) (by decide)
    (by decide) (by decide) (by decide)).1
  have e1 : natRepr 2023 ++ pad2 1 ++ pad2 15 = "20230115" := by decide
  have e2 : natRepr 2023 ++ "-" ++ pad2 1 ++ "-" ++ pad2 15 = "2023-01-15" := by decide
  rw [e1, e2] at h
  exact h

/-- C9: a source line with only three tab-separated columns is below the
column threshold of every one of the six stages, so removing or adding
such a line leaves the whole pipeline output unchanged — it contributes
zero rows to every table. -/
theorem three_column_line_skipped (hdr line : String) (pre post : List String)
    (db : DB) (h : (pySplit (pyStrip line) '\t').length = 3) :
    runPipeline (hdr :: (pre ++ line :: post)) db
      = runPipeline (hdr :: (pre ++ post)) db := by
  simp only [runPipeline, step1_create_region_table, step3_create_country_table,
    step5_create_customer_table, step7_create_productcategory_table,
    step9_create_product_table, step11_create_orderdetail_table]
  rw [step1_collect_skip hdr line pre post h,
    step3_collect_skip hdr line pre post _ h,
    step5_collect_skip hdr line pre post _ h,
    step7_collect_skip hdr line pre post h,
    step9_collect_skip hdr line pre post _ h,
    step11_collect_skip hdr line pre post _ _ h]

/-- A five-column line that resolves in the early stages. -/
def fiveColLine : String := "Jane Doe\tMain\tCity\tUSA\tEurope"

/-- C9 witness: inserting the three-column line between the header and
nothing leaves the run on a one-line file unchanged. -/
theorem three_column_line_skipped_witness :
    (pySplit (pyStrip "a\tb\tc") '\t').length = 3
    ∧ runPipeline [exHeader, fiveColLine, "a\tb\tc"] emptyDB
        = runPipeline [exHeader, fiveColLine] emptyDB :=
  ⟨by decide,
   three_column_line_skipped exHeader "a\tb\tc" [fiveColLine] [] emptyDB (by decide)⟩

/-- C10: a customer whose full name has no space gets an empty LastName;
the resolver key is FirstName, one space, LastName — hence a trailing
space for such customers; and the OrderDetail stage looks up the stripped
source name, which contains no space while every resolver key contains
one, so the lookup misses and such a line contributes zero OrderDetail
rows. -/
theorem single_token_name_no_orders (db : DB) (hdr line : String)
    (pre post : List String) (pd : List (String × Nat))
    (h : ' ' ∉ (pyStrip ((pySplit (pyStrip line) '\t').getD 0 "")).toList) :
    (∀ name : String, ' ' ∉ name.toList → splitName name = (name, ""))
    ∧ (∀ fn : String, customerKey fn "" = fn ++ " ")
    ∧ step11_collect (hdr :: (pre ++ line :: post)) (step6_get_customer_dict db) pd
        = step11_collect (hdr :: (pre ++ post)) (step6_get_customer_dict db) pd := by
  refine ⟨splitName_no_space, ?_, step11_collect_skip_no_space db hdr line pre post pd h⟩
  intro fn
  simp [customerKey]

/-- A store whose Customer table holds one single-token-name customer. -/
def cherDB : DB := ⟨[], [], [(1, "Cher", "", "a", "c", 1)], [], [], []⟩

def cherLine : String :=
  "Cher\tMain\tCity\tUSA\tEurope\tCola\tBeverages\tFizzy\t2.50\t3\t20230101"

/-- C10 witness: the single-token customer Cher gets LastName "", the
resolver key "Cher " with a trailing space, and an order line for Cher
contributes no OrderDetail row. -/
theorem single_token_name_no_orders_witness :
    splitName "Cher" = ("Cher", "")
    ∧ customerKey "Cher" "" = "Cher "
    ∧ step11_collect [exHeader, cherLine] (step6_get_customer_dict cherDB) [("Cola", 1)]
        = step11_collect [exHeader] (step6_get_customer_dict cherDB) [("Cola", 1)] := by
  have h := single_token_name_no_orders cherDB exHeader cherLine [] [] [("Cola", 1)]
    (by decide)
  exact ⟨h.1 "Cher" (by decide), h.2.1 "Cher", h.2.2⟩

/-- C7 witness: the trimming clause applied to the stored (Beverages,
Fizzy) row of the example file. -/
theorem subfield_trimming_policy_witness :
    pyStrip "Beverages" = "Beverages" ∧ "Beverages" ≠ "" ∧ pyStrip "Fizzy" = "Fizzy" :=
  (subfield_trimming_policy emptyDescFile emptyDB).1 (1, "Beverages", "Fizzy") (by decide)

/-- C2: every foreign key of every loaded row resolves to a row of the
parent table built earlier in the same run: Country rows reference Region
identifiers, Customer rows reference Country identifiers, Product rows
reference ProductCategory identifiers, and OrderDetail rows reference
Customer and Product identifiers; records whose referenced name fails to
resolve were skipped during collection, never loaded. -/
theorem referential_integrity (file : List String) (db : DB) :
    (∀ r ∈ (runPipeline file db).country,
      ∃ p ∈ (runPipeline file db).region, p.1 = r.2.2)
    ∧ (∀ r ∈ (runPipeline file db).customer,
      ∃ p ∈ (runPipeline file db).country, p.1 = r.2.2.2.2.2)
    ∧ (∀ r ∈ (runPipeline file db).product,
      ∃ p ∈ (runPipeline file db).productCategory, p.1 = r.2.2.2)
    ∧ (∀ r ∈ (runPipeline file db).orderDetail,
      (∃ p ∈ (runPipeline file db).customer, p.1 = r.2.1)
      ∧ (∃ p ∈ (runPipeline file db).product, p.1 = r.2.2.1)) := by
  refine ⟨?_, ?_, ?_, ?_⟩
  · -- Country → Region
    intro r hr
    have hmem : (r.2.1, r.2.2) ∈ step3_collect file
        (step2_get_region_dict (step1_create_region_table file db)) :=
      mem_assignIdsKV hr
    rcases step3_collect_values file _ _ hmem with ⟨q, hq, he⟩
    rcases mem_step2_dict (step1_create_region_table file db) q.1 q.2 hq with ⟨p, hp, hpe⟩
    exact ⟨p, hp, by rw [hpe, ← he]⟩
  · -- Customer → Country
    intro r hr
    set cd := step4_get_country_dict (dbAfterCountry file db) with hcd
    have hr2 : r ∈ ((step5_collect file cd).insertionSort custLeP).enum.map
        (fun p => (p.1 + 1, p.2)) := hr
    rcases List.mem_map.mp hr2 with ⟨⟨i, q⟩, hiq, he⟩
    have hq : q ∈ (step5_collect file cd).insertionSort custLeP := by
      rw [← List.enum_map_snd ((step5_collect file cd).insertionSort custLeP)]
      exact List.mem_map_of_mem Prod.snd hiq
    have hq2 : q ∈ step5_collect file cd := (List.perm_insertionSort custLeP _).subset hq
    rw [step5_collect_eq] at hq2
    rcases List.mem_filterMap.mp hq2 with ⟨raw, _, hline⟩
    rcases step5_line_fk cd raw q hline with ⟨qq, hqq, hfk⟩
    rcases mem_step4_dict (dbAfterCountry file db) qq.1 qq.2 hqq with ⟨p, hp, hpe⟩
    refine ⟨p, hp, ?_⟩
    rw [hpe, ← hfk, ← he]
  · -- Product → ProductCategory
    intro r hr
    set cd8 := step8_get_category_dict
      (step7_create_productcategory_table file
        (step5_create_customer_table file (dbAfterCountry file db))) with hcd8
    have hr2 : r ∈ (pySortByKey (step9_collect file cd8)).enum.map
        (fun p => (p.1 + 1, p.2.1, p.2.2.1, p.2.2.2)) := hr
    rcases List.mem_map.mp hr2 with ⟨⟨i, q⟩, hiq, he⟩
    have hq : q ∈ pySortByKey (step9_collect file cd8) := by
      rw [← List.enum_map_snd (pySortByKey (step9_collect file cd8))]
      exact List.mem_map_of_mem Prod.snd hiq
    have hq2 : q ∈ step9_collect file cd8 := (pySortByKey_perm _).subset hq
    rw [step9_collect_eq] at hq2
    rcases mem_foldl_insertIfAbsent hq2 with hbad | hsub
    · simp at hbad
    · unfold step9_subrecords at hsub
      rcases List.mem_flatMap.mp hsub with ⟨raw, _, hql⟩
      simp only [step9_lineRecs] at hql
      split_ifs at hql with ha hb hc
      · simp at hql
      · simp at hql
      · simp at hql
      rcases List.mem_filterMap.mp hql with ⟨t, _, hq3⟩
      rcases step9_sub_fk cd8 t q hq3 with ⟨qq, hqq, hfk⟩
      rcases mem_step8_dict _ qq.1 qq.2 hqq with ⟨p, hp, hpe⟩
      refine ⟨p, hp, ?_⟩
      rw [hpe, ← hfk, ← he]
  · -- OrderDetail → Customer, Product
    intro r hr
    have hr2 : r ∈ step11_collect file
        (step6_get_customer_dict (step5_create_customer_table file (dbAfterCountry file db)))
        (step10_get_product_dict (step9_create_product_table file
          (step7_create_productcategory_table file
            (step5_create_customer_table file (dbAfterCountry file db))))) := hr
    rcases step11_collect_fk file _ _ r hr2 with ⟨⟨qc, hqc, hec⟩, ⟨qp, hqp, hep⟩⟩
    constructor
    · rcases mem_step6_dict_id _ qc.1 qc.2 hqc with ⟨p, hp, hpe⟩
      exact ⟨p, hp, by rw [hpe, ← hec]⟩
    · rcases mem_step10_dict _ qp.1 qp.2 hqp with ⟨p, hp, hpe⟩
      exact ⟨p, hp, by rw [hpe, ← hep]⟩

/-- C2 witness: the first OrderDetail row of the end-to-end example file
resolves both of its foreign keys. -/
theorem referential_integrity_witness :
    (∃ p ∈ (runPipeline janeFile emptyDB).customer, p.1 = 1)
    ∧ (∃ p ∈ (runPipeline janeFile emptyDB).product, p.1 = 2) :=
  (referential_integrity janeFile emptyDB).2.2.2 (1, 1, 2, "2023-01-01", 3) (by decide)
